import Mathlib

/-!
Verification development for the governed context store server
(`src/server/src` of the repository): a shallow embedding, in Lean 4, of the
data model (`types/`), the in-memory store (`store/in_memory.rs`), the policy
engine (`policy.rs`), the sensitivity gate (`sensitivity.rs`) and the relevant
HTTP route handlers (`api/routes.rs`), together with theorems settling the
frozen claims about that code.

Modelling conventions:
* Rust `HashMap<String, V>` becomes an association list `List (String × V)`
  with `mapLookup` / `mapInsert`; value iteration order is insertion order
  (a deterministic refinement of `HashMap`'s unspecified order).
* Rust machine integers become `Nat`; where the source can wrap or truncate
  (`u32` version increments, the `u64` revision counter, `count() as u32`)
  the embedding applies the explicit modulus `% 2^32` / `% 2^64`.
* Fallible Rust code (`Result`) becomes `Except StoreError`; an
  out-of-bounds slice index (a Rust panic) is modelled as `Option.none`.
* Environment effects (clock, UUIDs, the current UTC weekday/hour used by
  `ChangeWindow`) are passed in as explicit arguments.
* `sha2` SHA-256 hashing is modelled by an injective fingerprint function
  `content_hash`; no claim under verification depends on the digest value.
-/

/-- Minimal JSON value type standing in for `serde_json::Value` (used for
audit-event details and the carried-but-unread `UpdateChanges.extra`). -/
inductive Json where
  | null : Json
  | bool (b : Bool) : Json
  | num (n : Int) : Json
  | str (s : String) : Json
  | arr (elems : List Json) : Json
  | obj (fields : List (String × Json)) : Json

/-- Sensitivity lattice from `sensitivity.rs` (derives `PartialOrd, Ord` on
variant order in the source). -/
inductive Sensitivity where
  | Public : Sensitivity
  | Internal : Sensitivity
  | Confidential : Sensitivity
  | Restricted : Sensitivity
deriving DecidableEq, Repr

/-- Rank of a sensitivity level; the source's derived `Ord` compares variant
order, which is exactly comparison of this rank. -/
def Sensitivity.toNat : Sensitivity → Nat
  | .Public => 0
  | .Internal => 1
  | .Confidential => 2
  | .Restricted => 3

/-- `Sensitivity::as_str` from `sensitivity.rs`. -/
def Sensitivity.as_str : Sensitivity → String
  | .Public => "public"
  | .Internal => "internal"
  | .Confidential => "confidential"
  | .Restricted => "restricted"

/-- `sensitivity::agent_can_read`: agents may read content whose sensitivity
is at most their maximum (inclusive). -/
def agent_can_read (content_sensitivity max_agent_sensitivity : Sensitivity) : Bool :=
  decide (content_sensitivity.toNat ≤ max_agent_sensitivity.toNat)

/-- Models `sensitivity::content_hash` (the SHA-256 hex digest of the content)
as an injective fingerprint; no claim under verification inspects the digest
value itself, only where the hash is (re)computed. -/
def content_hash (content : String) : String :=
  "sha256(" ++ content ++ ")"

/-- `NodeType` from `types/node.rs`. -/
inductive NodeType where
  | Goal | Decision | Constraint | Task | Risk | Question | Context | Plan | Note
deriving DecidableEq, Repr

/-- `NodeType::as_str` from `types/node.rs`. -/
def NodeType.as_str : NodeType → String
  | .Goal => "goal"
  | .Decision => "decision"
  | .Constraint => "constraint"
  | .Task => "task"
  | .Risk => "risk"
  | .Question => "question"
  | .Context => "context"
  | .Plan => "plan"
  | .Note => "note"

/-- `NodeStatus` from `types/node.rs`. -/
inductive NodeStatus where
  | Accepted | Proposed | Rejected | Superseded
deriving DecidableEq, Repr

/-- `NodeId` from `types/node.rs`; the Rust field `namespace` is a Lean
keyword and is rendered `nspace`. -/
structure NodeId where
  id : String
  nspace : Option String
deriving DecidableEq, Repr

/-- `NodeId::key`: the canonical key is `"ns:id"` when a namespace is
present, else `id`. -/
def NodeId.key (n : NodeId) : String :=
  match n.nspace with
  | some ns => ns ++ ":" ++ n.id
  | none => n.id

/-- `TextRange` from `types/node.rs`. -/
structure TextRange where
  start : Nat
  «end» : Nat
  source : Option String
deriving DecidableEq, Repr

/-- `RelationshipType` from `types/node.rs`. -/
inductive RelationshipType where
  | ParentChild | DependsOn | References | Supersedes | RelatedTo | Implements | Blocks | Mitigates
deriving DecidableEq, Repr

/-- `RelationshipMetadata` from `types/node.rs`. -/
structure RelationshipMetadata where
  created_at : Option String
  created_by : Option String
  description : Option String
deriving DecidableEq, Repr

/-- `NodeRelationship` from `types/node.rs`. -/
structure NodeRelationship where
  relationship_type : RelationshipType
  target : NodeId
  reverse_type : Option RelationshipType
  metadata : Option RelationshipMetadata
deriving DecidableEq, Repr

/-- `NodeMetadata` from `types/node.rs` (`version` is `u32` in the source). -/
structure NodeMetadata where
  created_at : String
  created_by : String
  modified_at : String
  modified_by : String
  tags : Option (List String)
  implemented_in_commit : Option String
  referenced_in_commits : Option (List String)
  version : Nat
  sensitivity : Option Sensitivity
  content_hash : Option String
  source_attribution : Option String
  ip_classification : Option String
  license : Option String
deriving DecidableEq, Repr

/-- `TaskState` from `types/node.rs`. -/
inductive TaskState where
  | Open | InProgress | Blocked | Completed | Cancelled
deriving DecidableEq, Repr

/-- `RiskSeverity` from `types/node.rs`. -/
inductive RiskSeverity where
  | Low | Medium | High | Critical
deriving DecidableEq, Repr

/-- `RiskLikelihood` from `types/node.rs`. -/
inductive RiskLikelihood where
  | Unlikely | Possible | Likely | Certain
deriving DecidableEq, Repr

/-- `ContextNode` from `types/node.rs`: the unified flat node shape with all
type-specific optional fields. -/
structure ContextNode where
  id : NodeId
  node_type : NodeType
  status : NodeStatus
  title : Option String
  description : Option String
  content : String
  text_range : Option TextRange
  metadata : NodeMetadata
  relationships : Option (List NodeRelationship)
  relations : Option (List NodeId)
  referenced_by : Option (List NodeId)
  source_files : Option (List String)
  decision : Option String
  rationale : Option String
  alternatives : Option (List String)
  decided_at : Option String
  state : Option TaskState
  assignee : Option String
  due_date : Option String
  dependencies : Option (List NodeId)
  severity : Option RiskSeverity
  likelihood : Option RiskLikelihood
  mitigation : Option String
  question : Option String
  answer : Option String
  answered_at : Option String
  constraint : Option String
  reason : Option String
deriving DecidableEq, Repr

/-- `ProposalStatus` from `types/proposal.rs`. -/
inductive ProposalStatus where
  | Open | Accepted | Rejected | Withdrawn | Applied
deriving DecidableEq, Repr

/-- `ProposalMetadata` from `types/proposal.rs` (`base_versions` maps node
keys to `u32` versions). -/
structure ProposalMetadata where
  created_at : String
  created_by : String
  modified_at : String
  modified_by : String
  rationale : Option String
  required_approvers : Option (List String)
  approved_by : Option (List String)
  base_versions : Option (List (String × Nat))
deriving DecidableEq, Repr

/-- `UpdateChanges` from `types/proposal.rs`; `extra` carries flattened
unknown JSON fields and is never read by the store. -/
structure UpdateChanges where
  content : Option String
  status : Option NodeStatus
  extra : Option (List (String × Json))

/-- `Operation` from `types/proposal.rs` (`order` is `u32`). -/
inductive Operation where
  | Create (id : String) (order : Nat) (node : ContextNode)
  | Update (id : String) (order : Nat) (node_id : NodeId) (changes : UpdateChanges)
  | Delete (id : String) (order : Nat) (node_id : NodeId) (reason : Option String)
  | StatusChange (id : String) (order : Nat) (node_id : NodeId)
      (new_status : NodeStatus) (old_status : NodeStatus) (reason : Option String)

/-- The shared `order` key of an operation (used by `sort_by_key`). -/
def Operation.order : Operation → Nat
  | .Create _ o _ => o
  | .Update _ o _ _ => o
  | .Delete _ o _ _ => o
  | .StatusChange _ o _ _ _ _ => o

/-- `AppliedMetadata` from `types/proposal.rs`. -/
structure AppliedMetadata where
  applied_at : String
  applied_by : String
  applied_from_review_id : Option String
  applied_from_proposal_id : String
  applied_to_revision_id : String
  previous_revision_id : String
deriving DecidableEq, Repr

/-- `CommentRange` from `types/proposal.rs`. -/
structure CommentRange where
  start : Nat
  «end» : Nat
deriving DecidableEq, Repr

/-- `CommentAnchor` from `types/proposal.rs`. -/
structure CommentAnchor where
  node_id : NodeId
  field : Option String
  range : Option CommentRange
  quote : Option String
deriving DecidableEq, Repr

/-- `CommentStatus` from `types/proposal.rs`. -/
inductive CommentStatus where
  | Open | Resolved
deriving DecidableEq, Repr

/-- `Comment` from `types/proposal.rs`; an inductive because comments nest
through `replies`. -/
inductive Comment where
  | mk (id : String) (content : String) (author : String) (created_at : String)
      (status : Option CommentStatus) (resolved_at : Option String)
      (resolved_by : Option String) (operation_id : Option String)
      (anchor : Option CommentAnchor) (replies : Option (List Comment))

/-- `Proposal` from `types/proposal.rs`. -/
structure Proposal where
  id : String
  status : ProposalStatus
  operations : List Operation
  metadata : ProposalMetadata
  comments : Option (List Comment)
  relations : Option (List String)
  applied : Option AppliedMetadata

/-- `ReviewAction` from `types/proposal.rs`. -/
inductive ReviewAction where
  | Accept | Reject | RequestChanges
deriving DecidableEq, Repr

/-- `Review` from `types/proposal.rs`. -/
structure Review where
  id : String
  proposal_id : String
  reviewer : String
  reviewer_role : Option String
  reviewed_at : String
  action : ReviewAction
  comment : Option String
  comments : Option (List Comment)
  operation_ids : Option (List String)
  is_approval : Option Bool

/-- `AuditAction` from `types/audit.rs`. -/
inductive AuditAction where
  | ProposalCreated | ProposalUpdated | ReviewSubmitted | ProposalApplied
  | ProposalWithdrawn | NodeCreated | NodeUpdated | NodeDeleted
  | RoleChanged | PolicyEvaluated | StoreReset | SensitiveRead
deriving DecidableEq, Repr

/-- `AuditOutcome` from `types/audit.rs`. -/
inductive AuditOutcome where
  | Success | Denied | PolicyViolation | Error
deriving DecidableEq, Repr

/-- `AuditEvent` from `types/audit.rs`. -/
structure AuditEvent where
  event_id : String
  timestamp : String
  actor_id : String
  actor_type : String
  action : AuditAction
  resource_id : String
  workspace_id : Option String
  details : Option Json
  outcome : AuditOutcome

/-- `AuditEvent::new`; the source generates a v4 UUID and reads the clock, so
the embedding takes `event_id` and `timestamp` as environment arguments. -/
def AuditEvent.new (actor_id actor_type : String) (action : AuditAction)
    (resource_id : String) (outcome : AuditOutcome)
    (event_id timestamp : String) : AuditEvent :=
  { event_id, timestamp, actor_id, actor_type, action, resource_id,
    workspace_id := none, details := none, outcome }

/-- `AuditEvent::with_details`. -/
def AuditEvent.with_details (e : AuditEvent) (details : Json) : AuditEvent :=
  { e with details := some details }

/-- `StoreError` from `store/context_store.rs`. -/
inductive StoreError where
  | NotFound (msg : String)
  | Conflict (msg : String)
  | Invalid (msg : String)
  | Internal (msg : String)
deriving DecidableEq, Repr

/-- `NodeQuery` from `types/query.rs`; the Rust field `r#type` is rendered
`type_`. -/
structure NodeQuery where
  type_ : Option (List NodeType)
  status : Option (List NodeStatus)
  search : Option String
  tags : Option (List String)
  nspace : Option String
  created_by : Option String
  modified_by : Option String
  limit : Option Nat
  offset : Option Nat
  sort_by : Option String
  sort_order : Option Bool

/-- `NodeQuery::default()`: every field absent. -/
def NodeQuery.default : NodeQuery :=
  { type_ := none, status := none, search := none, tags := none, nspace := none,
    created_by := none, modified_by := none, limit := none, offset := none,
    sort_by := none, sort_order := none }

/-- `NodeQueryResult` from `types/query.rs`. -/
structure NodeQueryResult where
  nodes : List ContextNode
  total : Nat
  limit : Nat
  offset : Nat
  has_more : Bool

/-- Association-list rendering of Rust's `HashMap<String, V>`:
`HashMap::get`. -/
def mapLookup {α : Type} (m : List (String × α)) (k : String) : Option α :=
  (m.find? (fun kv => kv.1 == k)).map (·.2)

/-- Association-list rendering of `HashMap::insert`: replaces the value in
place when the key is present, else appends. -/
def mapInsert {α : Type} (m : List (String × α)) (k : String) (v : α) :
    List (String × α) :=
  if (m.find? (fun kv => kv.1 == k)).isSome then
    m.map (fun kv => if kv.1 == k then (k, v) else kv)
  else
    m ++ [(k, v)]

/-- `InMemoryStore` from `store/in_memory.rs`; each `RwLock<_>` field becomes
a plain field (the lock discipline is not itself under verification; lock
poisoning, the source of the otherwise-unreachable `Internal` errors, is not
modelled). The `revision_counter` is `u64` in the source. -/
structure InMemoryStore where
  nodes : List (String × ContextNode)
  proposals : List (String × Proposal)
  reviews : List (String × List Review)
  revision_counter : Nat
  audit_log : List AuditEvent

/-- `node_key` from `store/in_memory.rs`. -/
def node_key (id : NodeId) : String :=
  id.key

/-- `InMemoryStore::new`. -/
def InMemoryStore.new : InMemoryStore :=
  { nodes := [], proposals := [], audit_log := [], reviews := [],
    revision_counter := 0 }

/-- `InMemoryStore::apply_operation` from `store/in_memory.rs`: executes one
operation against the node map. `version += 1` is a `u32` increment, hence
the `% 2^32`. -/
def InMemoryStore.apply_operation (nodes : List (String × ContextNode))
    (op : Operation) (modified_at modified_by : String) :
    Except StoreError (List (String × ContextNode)) :=
  match op with
  | .Create _ _ node =>
    let key := node_key node.id
    let node' := { node with metadata :=
      { node.metadata with
        modified_at := modified_at,
        modified_by := modified_by,
        version := (node.metadata.version + 1) % 2 ^ 32,
        content_hash := some (content_hash node.content) } }
    Except.ok (mapInsert nodes key node')
  | .Update _ _ node_id changes =>
    let key := node_key node_id
    match mapLookup nodes key with
    | none => Except.error (StoreError.NotFound ("node " ++ key))
    | some existing =>
      let e1 := { existing with metadata :=
        { existing.metadata with
          modified_at := modified_at,
          modified_by := modified_by,
          version := (existing.metadata.version + 1) % 2 ^ 32 } }
      let e2 := match changes.content with
        | some c =>
          { e1 with
            content := c
            description := some c
            metadata := { e1.metadata with content_hash := some (content_hash c) } }
        | none => e1
      let e3 := match changes.status with
        | some s => { e2 with status := s }
        | none => e2
      Except.ok (mapInsert nodes key e3)
  | .Delete _ _ node_id _ =>
    let key := node_key node_id
    match mapLookup nodes key with
    | none => Except.ok nodes
    | some n =>
      Except.ok (mapInsert nodes key
        { n with status := NodeStatus.Rejected, metadata :=
          { n.metadata with
            modified_at := modified_at,
            modified_by := modified_by,
            version := (n.metadata.version + 1) % 2 ^ 32 } })
  | .StatusChange _ _ node_id new_status _ _ =>
    let key := node_key node_id
    match mapLookup nodes key with
    | none => Except.ok nodes
    | some n =>
      Except.ok (mapInsert nodes key
        { n with status := new_status, metadata :=
          { n.metadata with
            modified_at := modified_at,
            modified_by := modified_by,
            version := (n.metadata.version + 1) % 2 ^ 32 } })

/-- The operation loop inside `apply_proposal`: each operation is applied in
turn; the first error aborts the loop, leaving the mutations of the earlier
iterations in place (exactly as the `?` inside the Rust `for` loop does). -/
def applyOps (nodes : List (String × ContextNode)) (ops : List Operation)
    (modified_at modified_by : String) :
    Except StoreError Unit × List (String × ContextNode) :=
  match ops with
  | [] => (Except.ok (), nodes)
  | op :: rest =>
    match InMemoryStore.apply_operation nodes op modified_at modified_by with
    | Except.ok nodes' => applyOps nodes' rest modified_at modified_by
    | Except.error e => (Except.error e, nodes)

/-- `InMemoryStore::get_node`. -/
def InMemoryStore.get_node (s : InMemoryStore) (node_id : NodeId) :
    Option ContextNode :=
  mapLookup s.nodes (node_key node_id)

/-- Case-insensitive substring containment, modelling Rust's
`to_lowercase().contains(..)` (ASCII lowering suffices for the embedding). -/
def contains_substr (s sub : String) : Bool :=
  if sub.isEmpty then true else decide (2 ≤ (s.splitOn sub).length)

/-- The filter pipeline of `InMemoryStore::query_nodes`: collect the node
values (insertion order) and apply the status / type / search retains. -/
def filteredNodes (s : InMemoryStore) (query : NodeQuery) : List ContextNode :=
  let list := s.nodes.map (·.2)
  let list := match query.status with
    | some statuses => list.filter (fun n => statuses.contains n.status)
    | none => list
  let list := match query.type_ with
    | some types => list.filter (fun n => types.contains n.node_type)
    | none => list
  match query.search with
  | some search =>
    let lo := search.toLower
    list.filter (fun n =>
      contains_substr n.content.toLower lo
        || (match n.title with
            | some t => contains_substr t.toLower lo
            | none => false)
        || (match n.description with
            | some d => contains_substr d.toLower lo
            | none => false))
  | none => list

/-- Rust slice indexing `l[start..stop]`: defined only when
`start ≤ stop ≤ l.length`; out-of-bounds indexing panics, modelled as
`none`. -/
def sliceRange {α : Type} (l : List α) (start stop : Nat) : Option (List α) :=
  if start ≤ stop ∧ stop ≤ l.length then some ((l.drop start).take (stop - start))
  else none

/-- `InMemoryStore::query_nodes`: filters, then pages with
`list[offset..end]` where `end = min(offset + limit, len)`; `none` is the
slice-index panic. -/
def InMemoryStore.query_nodes (s : InMemoryStore) (query : NodeQuery) :
    Option NodeQueryResult :=
  let list := filteredNodes s query
  let total := list.length
  let limit := min (query.limit.getD 50) 1000
  let offset := query.offset.getD 0
  let e := min (offset + limit) list.length
  match sliceRange list offset e with
  | none => none
  | some page =>
    some { nodes := page, total := total, limit := limit, offset := offset,
           has_more := decide (offset + page.length < total) }

/-- `InMemoryStore::get_proposal`. -/
def InMemoryStore.get_proposal (s : InMemoryStore) (proposal_id : String) :
    Option Proposal :=
  mapLookup s.proposals proposal_id

/-- `InMemoryStore::create_proposal`. -/
def InMemoryStore.create_proposal (s : InMemoryStore) (proposal : Proposal) :
    Except StoreError Unit × InMemoryStore :=
  if (mapLookup s.proposals proposal.id).isSome then
    (Except.error (StoreError.Conflict
      ("proposal " ++ proposal.id ++ " already exists")), s)
  else
    (Except.ok (),
     { s with proposals := mapInsert s.proposals proposal.id proposal })

/-- `InMemoryStore::submit_review`. -/
def InMemoryStore.submit_review (s : InMemoryStore) (review : Review) :
    Except StoreError Unit × InMemoryStore :=
  let proposal_id := review.proposal_id
  match mapLookup s.proposals proposal_id with
  | none =>
    (Except.error (StoreError.NotFound ("proposal " ++ proposal_id)), s)
  | some p =>
    if p.status ≠ ProposalStatus.Open then
      (Except.error (StoreError.Invalid "proposal is not open for review"), s)
    else
      let p' :=
        if review.action = ReviewAction.Accept then
          { p with status := ProposalStatus.Accepted }
        else if review.action = ReviewAction.Reject then
          { p with status := ProposalStatus.Rejected }
        else p
      (Except.ok (),
       { s with
         proposals := mapInsert s.proposals proposal_id p',
         reviews := mapInsert s.reviews proposal_id
           ((mapLookup s.reviews proposal_id).getD [] ++ [review]) })

/-- `Vec::sort_by_key(|o| o.order)` is a stable sort; modelled by Mathlib's
stable `insertionSort` on the same key. -/
def sortOpsByOrder (ops : List Operation) : List Operation :=
  ops.insertionSort (fun a b => a.order ≤ b.order)

/-- `InMemoryStore::apply_proposal` from `store/in_memory.rs`. The clock read
(`chrono::Utc::now().to_rfc3339()`) is the `now` argument. Returns the call
result together with the store state after the call; on an operation failure
the already-executed prefix of the loop and the incremented revision counter
remain in place, exactly as in the source. -/
def InMemoryStore.apply_proposal (s : InMemoryStore)
    (proposal_id applied_by now : String) :
    Except StoreError Unit × InMemoryStore :=
  match mapLookup s.proposals proposal_id with
  | none =>
    (Except.error (StoreError.NotFound ("proposal " ++ proposal_id)), s)
  | some proposal =>
    -- Idempotent: if already Applied, return Ok without mutating.
    if proposal.status = ProposalStatus.Applied then (Except.ok (), s)
    else if proposal.status ≠ ProposalStatus.Accepted then
      (Except.error (StoreError.Invalid
        "only accepted proposals can be applied"), s)
    else
      let last_review_id :=
        ((mapLookup s.reviews proposal_id).getD []).getLast?.map (·.id)
      let sorted_ops := sortOpsByOrder proposal.operations
      let previous_revision_id := "rev_" ++ toString s.revision_counter
      let rev' := (s.revision_counter + 1) % 2 ^ 64
      let applied_to_revision_id := "rev_" ++ toString rev'
      match applyOps s.nodes sorted_ops now applied_by with
      | (Except.error e, nodes') =>
        (Except.error e, { s with revision_counter := rev', nodes := nodes' })
      | (Except.ok _, nodes') =>
        let p' := { proposal with
          status := ProposalStatus.Applied,
          applied := some {
            applied_at := now,
            applied_by := applied_by,
            applied_from_review_id := last_review_id,
            applied_from_proposal_id := proposal_id,
            applied_to_revision_id := applied_to_revision_id,
            previous_revision_id := previous_revision_id } }
        (Except.ok (),
         { s with
           revision_counter := rev'
           nodes := nodes'
           proposals := mapInsert s.proposals proposal_id p' })

/-- `InMemoryStore::withdraw_proposal`. -/
def InMemoryStore.withdraw_proposal (s : InMemoryStore) (proposal_id : String) :
    Except StoreError Unit × InMemoryStore :=
  match mapLookup s.proposals proposal_id with
  | none =>
    (Except.error (StoreError.NotFound ("proposal " ++ proposal_id)), s)
  | some p =>
    if p.status ≠ ProposalStatus.Open then
      (Except.error (StoreError.Invalid
        "only open proposals (draft/submitted/changes_requested) can be withdrawn"), s)
    else
      (Except.ok (),
       { s with proposals := mapInsert s.proposals proposal_id
                               { p with status := ProposalStatus.Withdrawn } })

/-- `InMemoryStore::reset`: clears nodes, proposals, reviews and the revision
counter; the audit log is NOT cleared (intentional in the source). The
`Result` is always `Ok` absent lock poisoning, so the model returns the
state directly. -/
def InMemoryStore.reset (s : InMemoryStore) : InMemoryStore :=
  { nodes := [], proposals := [], reviews := [], revision_counter := 0,
    audit_log := s.audit_log }

/-- `InMemoryStore::append_audit`. -/
def InMemoryStore.append_audit (s : InMemoryStore) (event : AuditEvent) :
    Except StoreError Unit × InMemoryStore :=
  (Except.ok (), { s with audit_log := s.audit_log ++ [event] })

/-- `PolicyViolation` from `policy.rs`. -/
structure PolicyViolation where
  rule : String
  message : String
deriving DecidableEq, Repr

/-- `PolicyRule` from `policy.rs` (`min`, `max_operations`,
`max_content_length`, days and hours are unsigned machine integers in the
source, rendered as `Nat`). -/
inductive PolicyRule where
  | MinApprovals (node_types : List String) (min : Nat)
  | RequiredReviewerRole (node_types : List String) (role : String)
  | ChangeWindow (allowed_days : List Nat) (allowed_hour_start allowed_hour_end : Nat)
  | AgentRestriction (blocked_actions : List String)
  | AgentProposalLimit (max_operations max_content_length : Nat)
  | EgressControl (max_sensitivity : Sensitivity) (destinations : List String)

/-- `PolicyConfig` from `policy.rs`. -/
structure PolicyConfig where
  rules : List PolicyRule

/-- `policy::proposal_touches_node_types`: true when some operation carries
one of the given node types; only `Create` operations carry a node type (all
other variants hit the `_ => return false` arm in the source). -/
def proposal_touches_node_types (proposal : Proposal) (node_types : List String) : Bool :=
  proposal.operations.any (fun op =>
    match op with
    | .Create _ _ node => node_types.any (fun t => t == node.node_type.as_str)
    | _ => false)

/-- State carried by the rule loop of `policy::evaluate_on_review`:
`(min_approvals_needed, violations)`; the loop folds over the configured
rules in order. -/
def reviewRuleStep (proposal : Proposal) (all_reviews : List Review)
    (acc : Nat × List PolicyViolation) (rule : PolicyRule) :
    Nat × List PolicyViolation :=
  match rule with
  | .MinApprovals node_types mn =>
    if node_types.isEmpty || proposal_touches_node_types proposal node_types then
      (max acc.1 mn, acc.2)
    else acc
  | .RequiredReviewerRole node_types role =>
    if node_types.isEmpty || proposal_touches_node_types proposal node_types then
      let has_role_reviewer := all_reviews.any (fun r =>
        decide (r.action = ReviewAction.Accept) &&
          decide (r.reviewer_role = some role))
      if has_role_reviewer then acc
      else (acc.1, acc.2 ++ [{ rule := "required_reviewer_role"
                               message := "requires reviewer with role '" ++ role ++ "'" }])
    else acc
  | _ => acc

/-- `policy::evaluate_on_review` from `policy.rs`. `accept_count` is
`count() as u32` in the source, a truncating cast, hence the `% 2^32`. -/
def evaluate_on_review (proposal : Proposal) (all_reviews : List Review)
    (policies : PolicyConfig) : Option ProposalStatus × List PolicyViolation :=
  let has_rejection := all_reviews.any (fun r => decide (r.action = ReviewAction.Reject))
  if has_rejection then (some ProposalStatus.Rejected, [])
  else
    let accept_count :=
      (all_reviews.countP (fun r => decide (r.action = ReviewAction.Accept))) % 2 ^ 32
    let st := policies.rules.foldl (reviewRuleStep proposal all_reviews) (1, [])
    if st.1 ≤ accept_count ∧ st.2 = [] then
      (some ProposalStatus.Accepted, st.2)
    else
      (none, st.2)

/-- `policy::agent_max_sensitivity`: the first `EgressControl` rule wins;
default `Internal`. -/
def agent_max_sensitivity (policies : PolicyConfig) : Sensitivity :=
  match policies.rules.find? (fun r =>
    match r with
    | .EgressControl _ _ => true
    | _ => false) with
  | some (.EgressControl max_sensitivity _) => max_sensitivity
  | _ => Sensitivity.Internal

/-- Debug rendering `{:?}` of a list of `Nat` (for `ChangeWindow` violation
messages). -/
def natListDebug (l : List Nat) : String :=
  "[" ++ String.intercalate ", " (l.map toString) ++ "]"

/-- `policy::evaluate_on_apply`. The source reads the current UTC weekday
(0 = Monday) and hour from the clock; the embedding takes them as
environment arguments. -/
def evaluate_on_apply (_proposal : Proposal) (actor_type : String)
    (policies : PolicyConfig) (weekday hour : Nat) : List PolicyViolation :=
  policies.rules.foldl (fun violations rule =>
    match rule with
    | .ChangeWindow allowed_days allowed_hour_start allowed_hour_end =>
      let violations :=
        if !(allowed_days.contains weekday) then
          violations ++ [{ rule := "change_window"
                           message := "apply not allowed on day " ++ toString weekday ++
                             " (allowed: " ++ natListDebug allowed_days ++ ")" }]
        else violations
      if hour < allowed_hour_start || allowed_hour_end ≤ hour then
        violations ++ [{ rule := "change_window"
                         message := "apply not allowed at hour " ++ toString hour ++
                           " (allowed: " ++ toString allowed_hour_start ++ "–" ++
                           toString allowed_hour_end ++ ")" }]
      else violations
    | .AgentRestriction blocked_actions =>
      if actor_type == "agent" && blocked_actions.contains "apply" then
        violations ++ [{ rule := "agent_restriction"
                         message := "agents cannot apply proposals" }]
      else violations
    | _ => violations) []

/-- `ActorType` from `auth.rs`. -/
inductive ActorType where
  | Human | Agent | System
deriving DecidableEq, Repr

/-- `Role` from `auth.rs`. -/
inductive Role where
  | Reader | Contributor | Reviewer | Applier | Admin
deriving DecidableEq, Repr

/-- The rank used by `Role::includes` (Admin > Applier > Reviewer >
Contributor > Reader). -/
def Role.rank : Role → Nat
  | .Reader => 0
  | .Contributor => 1
  | .Reviewer => 2
  | .Applier => 3
  | .Admin => 4

/-- `Role::includes`: higher roles include lower ones. -/
def Role.includes (self other : Role) : Bool :=
  decide (other.rank ≤ self.rank)

/-- Debug rendering `{:?}` of a role (for RBAC error messages). -/
def Role.debugStr : Role → String
  | .Reader => "Reader"
  | .Contributor => "Contributor"
  | .Reviewer => "Reviewer"
  | .Applier => "Applier"
  | .Admin => "Admin"

/-- `ActorContext` from `auth.rs`. -/
structure ActorContext where
  actor_id : String
  actor_type : ActorType
  roles : List Role

/-- `ActorContext::has_role`. -/
def ActorContext.has_role (actor : ActorContext) (role : Role) : Bool :=
  actor.roles.any (fun r => r.includes role)

/-- `ActorContext::dev_default`: the admin actor used when auth is
disabled. -/
def ActorContext.dev_default : ActorContext :=
  { actor_id := "dev-user", actor_type := ActorType.Human, roles := [Role.Admin] }

/-- The message built by `rbac::require_role` on failure (the `format!` with
`{:?}` renderings). -/
def require_role_message (actor : ActorContext) (role : Role) : String :=
  "insufficient role: requires " ++ role.debugStr ++ ", actor " ++
    actor.actor_id ++ " has [" ++
    String.intercalate ", " (actor.roles.map Role.debugStr) ++ "]"

/-- The message built by `rbac::reject_agent` on failure. -/
def reject_agent_message (actor : ActorContext) (action : String) : String :=
  "agents cannot " ++ action ++ ": agent " ++ actor.actor_id

/-- `routes::actor_type_str`. -/
def actor_type_str (actor : ActorContext) : String :=
  match actor.actor_type with
  | .Human => "human"
  | .Agent => "agent"
  | .System => "system"

/-- `ApiError` from `api/routes.rs` (`Forbidden` carries the rbac message
string). -/
inductive ApiError where
  | NotFound (msg : String)
  | Invalid (msg : String)
  | Store (e : StoreError)
  | Forbidden (msg : String)
  | PolicyViolations (violations : List PolicyViolation)

/-- The HTTP status code chosen by `ApiError::into_response`. Note the
source's inner match on the store error has arms only for `NotFound` and
`Conflict`; the `_` catch-all sends everything else — including
`StoreError::Invalid` — to 500. -/
def ApiError.into_response_status : ApiError → Nat
  | .NotFound _ => 404
  | .Invalid _ => 400
  | .Store e =>
    match e with
    | StoreError.NotFound _ => 404
    | StoreError.Conflict _ => 409
    | _ => 500
  | .Forbidden _ => 403
  | .PolicyViolations _ => 422

/-- `ServerEvent` from `events.rs`. -/
structure ServerEvent where
  event_type : String
  workspace_id : Option String
  resource_id : String
  actor_id : String
  timestamp : String
  data : Option Json

/-- `routes::publish_event`: the event-bus `publish` is modelled as
appending the published event to a list. The timestamp the source reads
from the clock is the `now` argument. -/
def publish_event (bus : List ServerEvent) (event_type resource_id : String)
    (actor : ActorContext) (now : String) : List ServerEvent :=
  bus ++ [{ event_type := event_type
            workspace_id := none
            resource_id := resource_id
            actor_id := actor.actor_id
            timestamp := now
            data := none }]

/-- serde serialization of a list of `PolicyViolation` (camelCase fields),
as embedded into audit details by the route handlers. -/
def policyViolationsJson (violations : List PolicyViolation) : Json :=
  Json.arr (violations.map (fun v =>
    Json.obj [("rule", Json.str v.rule), ("message", Json.str v.message)]))

/-- `ApplyBody` from `api/routes.rs`. -/
structure ApplyBody where
  applied_by : Option String

/-- Successful JSON body `{"ok": true}` returned by mutating endpoints. -/
def okBody : Json :=
  Json.obj [("ok", Json.bool true)]

/-- The `POST /proposals/:id/apply` handler (`routes::apply_proposal`):
RBAC, agent rejection, apply-time policy, the store apply, then — on any
successful store call, including the idempotent no-op — an unconditional
`proposal_applied`/`success` audit append and a `proposal_updated` bus
publish. Environment arguments: `now` (clock), `eid` (audit event UUID),
`weekday`/`hour` (for `ChangeWindow`). -/
def route_apply_proposal (policies : PolicyConfig) (actor : ActorContext)
    (s : InMemoryStore) (bus : List ServerEvent) (id : String)
    (body : Option ApplyBody) (now eid : String) (weekday hour : Nat) :
    (Except ApiError (Nat × Json)) × InMemoryStore × List ServerEvent :=
  if !(actor.has_role Role.Applier) then
    (Except.error (ApiError.Forbidden (require_role_message actor Role.Applier)), s, bus)
  else if actor.actor_type = ActorType.Agent then
    (Except.error (ApiError.Forbidden (reject_agent_message actor "apply proposal")), s, bus)
  else
    match s.get_proposal id with
    | some proposal =>
      let violations := evaluate_on_apply proposal (actor_type_str actor) policies weekday hour
      if violations ≠ [] then
        let event := (AuditEvent.new actor.actor_id (actor_type_str actor)
          AuditAction.PolicyEvaluated id AuditOutcome.PolicyViolation eid now).with_details
            (Json.obj [("violations", policyViolationsJson violations)])
        (Except.error (ApiError.PolicyViolations violations), (s.append_audit event).2, bus)
      else
        route_apply_after_policy policies actor s bus id body now eid
    | none =>
      route_apply_after_policy policies actor s bus id body now eid
where
  /-- Tail of the handler after the policy gate (steps 4–8 of the source). -/
  route_apply_after_policy (_policies : PolicyConfig) (actor : ActorContext)
      (s : InMemoryStore) (bus : List ServerEvent) (id : String)
      (body : Option ApplyBody) (now eid : String) :
      (Except ApiError (Nat × Json)) × InMemoryStore × List ServerEvent :=
    let applied_by := (body.bind (·.applied_by)).getD actor.actor_id
    match s.apply_proposal id applied_by now with
    | (Except.error e, s') => (Except.error (ApiError.Store e), s', bus)
    | (Except.ok _, s') =>
      let event := AuditEvent.new actor.actor_id (actor_type_str actor)
        AuditAction.ProposalApplied id AuditOutcome.Success eid now
      let s'' := (s'.append_audit event).2
      (Except.ok (200, okBody), s'', publish_event bus "proposal_updated" id actor now)

/-- Response of `GET /nodes/:id`: either the full node or the redacted stub
`{id, type, status, redacted: true, reason: "sensitivity",
metadata.sensitivity}` the handler builds for an over-sensitive agent
read (the stub carries exactly those data). -/
inductive GetNodeResponse where
  | node (n : ContextNode)
  | redactedStub (id : NodeId) (node_type : NodeType) (status : NodeStatus)
      (sensitivity : Sensitivity)

/-- The `GET /nodes/:id` handler (`routes::get_node`): RBAC, lookup by the
un-namespaced id, then for agents the sensitivity gate — a denied read
yields the redacted stub plus a `sensitive_read`/`denied` audit event, an
allowed read of `confidential`-or-above content appends a
`sensitive_read`/`success` audit event. `eid`/`ts` are the audit event's
UUID and timestamp. -/
def route_get_node (policies : PolicyConfig) (actor : ActorContext)
    (s : InMemoryStore) (id : String) (eid ts : String) :
    (Except ApiError GetNodeResponse) × InMemoryStore :=
  if !(actor.has_role Role.Reader) then
    (Except.error (ApiError.Forbidden (require_role_message actor Role.Reader)), s)
  else
    let node_id : NodeId := { id := id, nspace := none }
    match s.get_node node_id with
    | none => (Except.error (ApiError.NotFound ("node " ++ id)), s)
    | some node =>
      if actor.actor_type = ActorType.Agent then
        let node_sensitivity := node.metadata.sensitivity.getD Sensitivity.Internal
        let max_sensitivity := agent_max_sensitivity policies
        if !(agent_can_read node_sensitivity max_sensitivity) then
          let event := (AuditEvent.new actor.actor_id (actor_type_str actor)
            AuditAction.SensitiveRead id AuditOutcome.Denied eid ts).with_details
              (Json.obj [("nodeSensitivity", Json.str node_sensitivity.as_str),
                         ("agentMaxSensitivity", Json.str max_sensitivity.as_str)])
          (Except.ok (GetNodeResponse.redactedStub node.id node.node_type
             node.status node_sensitivity),
           (s.append_audit event).2)
        else if Sensitivity.Confidential.toNat ≤ node_sensitivity.toNat then
          let event := (AuditEvent.new actor.actor_id (actor_type_str actor)
            AuditAction.SensitiveRead id AuditOutcome.Success eid ts).with_details
              (Json.obj [("nodeSensitivity", Json.str node_sensitivity.as_str)])
          (Except.ok (GetNodeResponse.node node), (s.append_audit event).2)
        else
          (Except.ok (GetNodeResponse.node node), s)
      else
        (Except.ok (GetNodeResponse.node node), s)

/-- One observable entry per actually-performed apply: the revision-counter
value the apply read, and the two revision ids it wrote into
`AppliedMetadata`. -/
structure ApplyRecord where
  counter_read : Nat
  previous_revision_id : String
  applied_to_revision_id : String
deriving DecidableEq, Repr

/-- A store mutation in a call sequence (reads and comment operations do not
touch the revision counter and are omitted). -/
inductive StoreCall where
  | createProposal (p : Proposal)
  | submitReview (r : Review)
  | applyProposal (proposal_id applied_by now : String)
  | withdrawProposal (proposal_id : String)
  | resetStore
  | appendAudit (e : AuditEvent)

/-- Result of running a call sequence: the final store, one `ApplyRecord`
per performed apply (an apply call that found the proposal in status
`Accepted` and returned ok; the metadata is read back from the stored
proposal), and whether some performed apply failed partway (reached the
operation loop but returned an error). -/
structure RunResult where
  state : InMemoryStore
  trace : List ApplyRecord
  failed_apply : Bool

/-- Run a sequence of store calls from a given state, collecting the apply
trace. -/
def runWithTrace (s : InMemoryStore) : List StoreCall → RunResult
  | [] => { state := s, trace := [], failed_apply := false }
  | c :: cs =>
    match c with
    | .applyProposal pid applier now =>
      let performed := match mapLookup s.proposals pid with
        | some p => decide (p.status = ProposalStatus.Accepted)
        | none => false
      let r := s.apply_proposal pid applier now
      let rest := runWithTrace r.2 cs
      if performed then
        match r.1 with
        | Except.ok _ =>
          let entry := match mapLookup r.2.proposals pid with
            | some p' =>
              match p'.applied with
              | some am => [{ counter_read := s.revision_counter
                              previous_revision_id := am.previous_revision_id
                              applied_to_revision_id := am.applied_to_revision_id }]
              | none => []
            | none => []
          { state := rest.state, trace := entry ++ rest.trace,
            failed_apply := rest.failed_apply }
        | Except.error _ =>
          { state := rest.state, trace := rest.trace, failed_apply := true }
      else
        { state := rest.state, trace := rest.trace, failed_apply := rest.failed_apply }
    | .createProposal p => runWithTrace (s.create_proposal p).2 cs
    | .submitReview rv => runWithTrace (s.submit_review rv).2 cs
    | .withdrawProposal pid => runWithTrace (s.withdraw_proposal pid).2 cs
    | .resetStore => runWithTrace s.reset cs
    | .appendAudit e => runWithTrace (s.append_audit e).2 cs

/-- True when the sequence contains no `reset`. -/
def noReset (cs : List StoreCall) : Bool :=
  cs.all (fun c =>
    match c with
    | .resetStore => false
    | _ => true)

/-- Claim C7 as stated, as a predicate on a call sequence run from a fresh
store: counter values read by successful applies are strictly increasing,
every successful apply writes `rev_prev` / `rev_(prev+1)` from the counter
value it read, and the `previous_revision_id` of each apply equals the
`applied_to_revision_id` of the previous one. -/
def revisionChainClaim (cs : List StoreCall) : Prop :=
  let tr := (runWithTrace InMemoryStore.new cs).trace
  List.Chain' (fun a b => a.counter_read < b.counter_read) tr ∧
  (∀ e ∈ tr, e.previous_revision_id = "rev_" ++ toString e.counter_read ∧
             e.applied_to_revision_id = "rev_" ++ toString (e.counter_read + 1)) ∧
  List.Chain' (fun a b => b.previous_revision_id = a.applied_to_revision_id) tr

/-- The version recorded at a key of the node map. -/
def versionAt (nodes : List (String × ContextNode)) (k : String) : Option Nat :=
  (mapLookup nodes k).map (fun n => n.metadata.version)

/-- Claim C9's silent-no-op condition: a `Delete` or `StatusChange`
operation whose node id names no node in the map. -/
def noopOnMissing (nodes : List (String × ContextNode)) : Operation → Prop
  | .Delete _ _ node_id _ => mapLookup nodes (node_key node_id) = none
  | .StatusChange _ _ node_id _ _ _ => mapLookup nodes (node_key node_id) = none
  | _ => False

/-- Spec-side applicability of a rule (claim C5's words): the `node_types`
list is empty or the proposal touches one of the listed node types. -/
def applicableRule (proposal : Proposal) (node_types : List String) : Bool :=
  node_types.isEmpty || proposal_touches_node_types proposal node_types

/-- The `min` thresholds of the `MinApprovals` rules applicable to a
proposal. -/
def minApprovalsOf (proposal : Proposal) (rules : List PolicyRule) : List Nat :=
  rules.filterMap (fun rule =>
    match rule with
    | .MinApprovals nts mn => if applicableRule proposal nts then some mn else none
    | _ => none)

/-- Whether some accept review carries the given reviewer role. -/
def hasRoleAccept (all_reviews : List Review) (role : String) : Bool :=
  all_reviews.any (fun r =>
    decide (r.action = ReviewAction.Accept) && decide (r.reviewer_role = some role))

/-- The violations produced by the applicable-but-unsatisfied
`RequiredReviewerRole` rules. -/
def roleViolationsOf (proposal : Proposal) (all_reviews : List Review)
    (rules : List PolicyRule) : List PolicyViolation :=
  rules.filterMap (fun rule =>
    match rule with
    | .RequiredReviewerRole nts role =>
      if applicableRule proposal nts && !(hasRoleAccept all_reviews role) then
        some { rule := "required_reviewer_role"
               message := "requires reviewer with role '" ++ role ++ "'" }
      else none
    | _ => none)

/-- Spec-side restatement of claim C5's decision rule: any reject ⇒
`Rejected`; otherwise, with `n_needed = max(1, max MinApprovals.min over
applicable rules)`, return `Accepted` when the number of accept reviews is
at least `n_needed` and no `RequiredReviewerRole` rule is violated, and
`none` (still pending) otherwise. -/
def evaluate_on_review_spec (proposal : Proposal) (all_reviews : List Review)
    (policies : PolicyConfig) : Option ProposalStatus :=
  if all_reviews.any (fun r => decide (r.action = ReviewAction.Reject)) then
    some ProposalStatus.Rejected
  else
    let n_needed := max 1 ((minApprovalsOf proposal policies.rules).foldr max 0)
    let role_violated := policies.rules.any (fun rule =>
      match rule with
      | .RequiredReviewerRole nts role =>
        applicableRule proposal nts && !(hasRoleAccept all_reviews role)
      | _ => false)
    if n_needed ≤ all_reviews.countP (fun r => decide (r.action = ReviewAction.Accept)) ∧
        role_violated = false then
      some ProposalStatus.Accepted
    else none

/-- Test fixture: node metadata in the shape of the repository's own test
helper `meta()`, with a chosen version and sensitivity. -/
def testNodeMetadata (version : Nat) (sensitivity : Option Sensitivity) : NodeMetadata :=
  { created_at := "2026-01-01T00:00:00Z"
    created_by := "test"
    modified_at := "2026-01-01T00:00:00Z"
    modified_by := "test"
    tags := none
    implemented_in_commit := none
    referenced_in_commits := none
    version := version
    sensitivity := sensitivity
    content_hash := none
    source_attribution := none
    ip_classification := none
    license := none }

/-- Test fixture: a goal node with all optional fields absent. -/
def testNode (idStr content : String) (version : Nat)
    (sensitivity : Option Sensitivity) : ContextNode :=
  { id := { id := idStr, nspace := none }
    node_type := NodeType.Goal
    status := NodeStatus.Accepted
    title := none
    description := none
    content := content
    text_range := none
    metadata := testNodeMetadata version sensitivity
    relationships := none
    relations := none
    referenced_by := none
    source_files := none
    decision := none
    rationale := none
    alternatives := none
    decided_at := none
    state := none
    assignee := none
    due_date := none
    dependencies := none
    severity := none
    likelihood := none
    mitigation := none
    question := none
    answer := none
    answered_at := none
    constraint := none
    reason := none }

/-- Test fixture: proposal metadata in the shape of the repository's test
helper `proposal_meta()`. -/
def testProposalMetadata : ProposalMetadata :=
  { created_at := "2026-01-01T00:00:00Z"
    created_by := "test"
    modified_at := "2026-01-01T00:00:00Z"
    modified_by := "test"
    rationale := none
    required_approvers := none
    approved_by := none
    base_versions := none }

/-- Test fixture: a proposal with the given id, status and operations. -/
def mkProposal (id : String) (status : ProposalStatus) (ops : List Operation) : Proposal :=
  { id := id
    status := status
    operations := ops
    metadata := testProposalMetadata
    comments := none
    relations := none
    applied := none }

/-- Empty `UpdateChanges` fixture. -/
def noChanges : UpdateChanges :=
  { content := none, status := none, extra := none }

/-- Empty policy configuration (no rules configured). -/
def cfg0 : PolicyConfig := { rules := [] }

/-- C1 fixture: an accepted proposal creating one node. -/
def c1Proposal : Proposal :=
  mkProposal "p1" ProposalStatus.Accepted
    [Operation.Create "op1" 1 (testNode "n1" "hello" 1 none)]

/-- C1 fixture: store holding the accepted proposal. -/
def c1Store0 : InMemoryStore := (InMemoryStore.new.create_proposal c1Proposal).2

/-- C1 fixture: the first `POST /proposals/p1/apply` call. -/
def c1Call1 : (Except ApiError (Nat × Json)) × InMemoryStore × List ServerEvent :=
  route_apply_proposal cfg0 ActorContext.dev_default c1Store0 [] "p1" none "t1" "e1" 0 10

/-- C1 fixture: the second (idempotent) `POST /proposals/p1/apply` call, on
the state and bus left by the first. -/
def c1Call2 : (Except ApiError (Nat × Json)) × InMemoryStore × List ServerEvent :=
  route_apply_proposal cfg0 ActorContext.dev_default c1Call1.2.1 c1Call1.2.2 "p1" none
    "t2" "e2" 0 10

/-- C2 fixture: an accepted proposal whose second operation (by order)
updates a node that does not exist. -/
def c2Proposal : Proposal :=
  mkProposal "p2" ProposalStatus.Accepted
    [Operation.Create "op1" 1 (testNode "n1" "hello" 1 none),
     Operation.Update "op2" 2 { id := "missing", nspace := none } noChanges]

/-- C2 fixture: store holding the failing accepted proposal. -/
def c2Store : InMemoryStore := (InMemoryStore.new.create_proposal c2Proposal).2

/-- C2 fixture: the failing apply call. -/
def c2Apply : Except StoreError Unit × InMemoryStore :=
  c2Store.apply_proposal "p2" "test-user" "t1"

/-- C3 fixture: store holding a proposal in terminal status `Applied`. -/
def c3Store : InMemoryStore :=
  { InMemoryStore.new with
    proposals := [("p1", mkProposal "p1" ProposalStatus.Applied [])] }

/-- C4 fixture: node map holding `n1` at version 5. -/
def c4Nodes : List (String × ContextNode) := [("n1", testNode "n1" "old" 5 none)]

/-- C4 fixture: a `Create` operation replacing key `n1` with an incoming
node of version 1. -/
def c4CreateOp : Operation := Operation.Create "op" 1 (testNode "n1" "newer" 1 none)

/-- C4 fixture: the node map produced by the replacing `Create`. -/
def c4NodesAfter : List (String × ContextNode) :=
  match InMemoryStore.apply_operation c4Nodes c4CreateOp "t2" "u2" with
  | Except.ok ns => ns
  | Except.error _ => []

/-- C5 fixture: an open proposal with no operations. -/
def c5Proposal : Proposal := mkProposal "p" ProposalStatus.Open []

/-- C5 fixture: a single accept review. -/
def acceptReview : Review :=
  { id := "r1"
    proposal_id := "p"
    reviewer := "reviewer-1"
    reviewer_role := none
    reviewed_at := "2026-01-02T00:00:00Z"
    action := ReviewAction.Accept
    comment := none
    comments := none
    operation_ids := none
    is_approval := none }

/-- C5 fixture: 2^32 accept reviews — enough for the `count() as u32`
truncating cast inside `evaluate_on_review` to wrap to zero. -/
def c5BigReviews : List Review := List.replicate (2 ^ 32) acceptReview

/-- C6 fixture: a restricted-sensitivity node. -/
def c6Node : ContextNode := testNode "n6" "secret" 1 (some Sensitivity.Restricted)

/-- C6 fixture: store holding the restricted node. -/
def c6Store : InMemoryStore := { InMemoryStore.new with nodes := [("n6", c6Node)] }

/-- C6 fixture: an agent actor with the Reader role. -/
def agentReader : ActorContext :=
  { actor_id := "agent-1", actor_type := ActorType.Agent, roles := [Role.Reader] }

/-- C7 fixture: a call sequence containing a successful apply, an apply that
fails partway (missing `Update` target), another successful apply, a reset,
and a final successful apply. -/
def c7Demo : List StoreCall :=
  [StoreCall.createProposal (mkProposal "pa" ProposalStatus.Accepted []),
   StoreCall.applyProposal "pa" "u" "t1",
   StoreCall.createProposal (mkProposal "pb" ProposalStatus.Accepted
     [Operation.Update "op" 1 { id := "missing", nspace := none } noChanges]),
   StoreCall.applyProposal "pb" "u" "t2",
   StoreCall.createProposal (mkProposal "pc" ProposalStatus.Accepted []),
   StoreCall.applyProposal "pc" "u" "t3",
   StoreCall.resetStore,
   StoreCall.createProposal (mkProposal "pd" ProposalStatus.Accepted []),
   StoreCall.applyProposal "pd" "u" "t4"]

/-- C7 fixture: a clean sequence (no reset, no failing apply) used by the
amended theorem's witness. -/
def c7CleanDemo : List StoreCall :=
  [StoreCall.createProposal (mkProposal "pa" ProposalStatus.Accepted []),
   StoreCall.applyProposal "pa" "u" "t1",
   StoreCall.createProposal (mkProposal "pc" ProposalStatus.Accepted []),
   StoreCall.applyProposal "pc" "u" "t3"]

/-- C9 fixture: an accepted proposal whose operations delete and
status-change nodes that do not exist. -/
def c9Proposal : Proposal :=
  mkProposal "p9" ProposalStatus.Accepted
    [Operation.Delete "d1" 1 { id := "ghost", nspace := none } none,
     Operation.StatusChange "s1" 2 { id := "ghost2", nspace := none }
       NodeStatus.Rejected NodeStatus.Accepted none]

/-- C9 fixture: store holding that proposal and no nodes. -/
def c9Store : InMemoryStore := (InMemoryStore.new.create_proposal c9Proposal).2

/-- C10 fixture: a query whose offset (1) exceeds the number of matching
nodes (0 in the fresh store). -/
def c10Query : NodeQuery := { NodeQuery.default with offset := some 1 }

/-- C4 witness fixture: an `Update` of `n1` with empty changes. -/
def c4UpdOp : Operation := Operation.Update "u1" 1 { id := "n1", nspace := none } noChanges

/-- C4 witness fixture: the node map after that update. -/
def c4UpdNodesAfter : List (String × ContextNode) :=
  match InMemoryStore.apply_operation c4Nodes c4UpdOp "t3" "u3" with
  | Except.ok ns => ns
  | Except.error _ => []

/-- C5 witness fixture: a policy set with one `MinApprovals` rule for all
node types. -/
def cfg1 : PolicyConfig := { rules := [PolicyRule.MinApprovals [] 1] }

/-- The expected apply trace of a clean run: starting from counter value
`c`, the `k` performed applies read `c, c+1, …` and write the chained
revision-id pairs `rev_c → rev_(c+1)`, `rev_(c+1) → rev_(c+2)`, …. -/
def rangeTrace (c : Nat) : Nat → List ApplyRecord
  | 0 => []
  | k + 1 =>
    { counter_read := c
      previous_revision_id := "rev_" ++ toString c
      applied_to_revision_id := "rev_" ++ toString (c + 1) } :: rangeTrace (c + 1) k

/-- Lookup after a replacing map over an association list. -/
theorem find?_map_replace {α : Type} (m : List (String × α)) (k : String) (v : α) :
    (m.map (fun kv => if kv.1 == k then (k, v) else kv)).find? (fun kv => kv.1 == k) =
      if (m.find? (fun kv => kv.1 == k)).isSome then some (k, v) else none := by
  induction m with
  | nil => rfl
  | cons a m ih =>
    by_cases h : (a.1 == k) = true
    · have hrepl : (if a.1 == k then (k, v) else a) = (k, v) := by rw [if_pos h]
      have hL : (((k, v) :: m.map (fun kv => if kv.1 == k then (k, v) else kv)).find?
          (fun kv => kv.1 == k)) = some (k, v) := List.find?_cons_of_pos _ (by simp)
      have hR : ((a :: m).find? (fun kv => kv.1 == k)) = some a :=
        List.find?_cons_of_pos _ h
      rw [List.map_cons, hrepl, hL, hR]
      rfl
    · have hb : (a.1 == k) = false := by simpa using h
      have hrepl : (if a.1 == k then (k, v) else a) = a := by simp [hb]
      have hL : ((a :: m.map (fun kv => if kv.1 == k then (k, v) else kv)).find?
          (fun kv => kv.1 == k)) =
          (m.map (fun kv => if kv.1 == k then (k, v) else kv)).find?
            (fun kv => kv.1 == k) := List.find?_cons_of_neg _ h
      have hR : ((a :: m).find? (fun kv => kv.1 == k)) = m.find? (fun kv => kv.1 == k) :=
        List.find?_cons_of_neg _ h
      rw [List.map_cons, hrepl, hL, hR, ih]

/-- `mapInsert` followed by `mapLookup` at the same key yields the inserted
value. -/
theorem mapLookup_mapInsert_self {α : Type} (m : List (String × α)) (k : String) (v : α) :
    mapLookup (mapInsert m k v) k = some v := by
  unfold mapLookup mapInsert
  by_cases h : (m.find? (fun kv => kv.1 == k)).isSome
  · rw [if_pos h, find?_map_replace, if_pos h]
    rfl
  · have hnone : m.find? (fun kv => kv.1 == k) = none := by
      cases hm : m.find? (fun kv => kv.1 == k) with
      | none => rfl
      | some x => rw [hm] at h; simp at h
    rw [if_neg h, List.find?_append, hnone]
    simp

/-- C8: `reset()` clears the node map, the proposal map, the review map and
the revision counter, and leaves the audit log exactly unchanged (every
audit event present before reset is present, in the same order, after). -/
theorem C8_reset_frame (s : InMemoryStore) :
    s.reset.nodes = [] ∧ s.reset.proposals = [] ∧ s.reset.reviews = [] ∧
    s.reset.revision_counter = 0 ∧ s.reset.audit_log = s.audit_log :=
  ⟨rfl, rfl, rfl, rfl, rfl⟩

/-- C3 (code bug): withdrawing an `Applied` proposal is rejected by the
store with `StoreError::Invalid`, but `ApiError::into_response` maps that
error through its `_` catch-all arm to HTTP 500, not the claimed 400; the
`NotFound → 404`, `Conflict → 409` and `Internal → 500` rows of the claimed
mapping do hold, and the store state is left unchanged by the rejected
withdraw. -/
theorem C3_invalid_maps_to_500 :
    (c3Store.withdraw_proposal "p1").1 = Except.error (StoreError.Invalid
      "only open proposals (draft/submitted/changes_requested) can be withdrawn") ∧
    (c3Store.withdraw_proposal "p1").2.proposals = c3Store.proposals ∧
    ApiError.into_response_status (ApiError.Store (StoreError.Invalid
      "only open proposals (draft/submitted/changes_requested) can be withdrawn")) = 500 ∧
    ApiError.into_response_status (ApiError.Store (StoreError.NotFound "x")) = 404 ∧
    ApiError.into_response_status (ApiError.Store (StoreError.Conflict "x")) = 409 ∧
    ApiError.into_response_status (ApiError.Store (StoreError.Internal "x")) = 500 :=
  ⟨rfl, rfl, rfl, rfl, rfl, rfl⟩

/-- C2 (code bug): applying an accepted proposal whose ordered operation
list contains a failing `Update` returns `NotFound`, and the proposal's
status does remain `Accepted` — but the revision counter is NOT rolled back
(it stays at 1, incremented before the loop) and the node created by the
earlier operation of the same apply IS visible, contradicting the claimed
all-or-nothing behaviour. -/
theorem C2_partial_apply_not_rolled_back :
    c2Apply.1 = Except.error (StoreError.NotFound "node missing") ∧
    c2Store.revision_counter = 0 ∧
    c2Apply.2.revision_counter = 1 ∧
    (mapLookup c2Apply.2.nodes "n1").isSome = true ∧
    (mapLookup c2Apply.2.proposals "p2").map (fun p => p.status) =
      some ProposalStatus.Accepted :=
  ⟨rfl, rfl, rfl, rfl, rfl⟩

/-- C10 counterexample: on a fresh (empty) store, a query with offset 1
does not return a result at all — the slice `list[offset..end]` has
`offset = 1 > 0 = end` and panics (modelled as `none`), refuting the claim
that `query_nodes` is total and returns an empty page. -/
theorem C10_counterexample :
    InMemoryStore.new.query_nodes c10Query = none :=
  rfl

/-- C4 counterexample: node key `n1` holds version 5; a successful `Create`
operation replacing that key with an incoming node of version 1 leaves the
stored version at 2 — the version after the operation is NOT strictly
greater than the version before it, refuting the claim for the
Create-replaces-existing-key case. -/
theorem C4_counterexample :
    versionAt c4Nodes "n1" = some 5 ∧
    InMemoryStore.apply_operation c4Nodes c4CreateOp "t2" "u2" = Except.ok c4NodesAfter ∧
    versionAt c4NodesAfter "n1" = some 2 :=
  ⟨rfl, rfl, rfl⟩

/-- C1 (code bug): the second `POST /proposals/p1/apply` on an
already-applied proposal succeeds and leaves nodes, proposals, reviews and
the revision counter unchanged (the store-level idempotence the claim
asserts), BUT the handler appends a second `proposal_applied`/`success`
audit event and publishes a second `proposal_updated` bus event — the audit
log and event bus are not unchanged, contradicting the claim. -/
theorem C1_second_apply_appends_audit :
    c1Call1.1 = Except.ok (200, okBody) ∧
    (mapLookup c1Call1.2.1.proposals "p1").map (fun p => p.status) =
      some ProposalStatus.Applied ∧
    c1Call2.1 = Except.ok (200, okBody) ∧
    c1Call2.2.1.nodes = c1Call1.2.1.nodes ∧
    c1Call2.2.1.proposals = c1Call1.2.1.proposals ∧
    c1Call2.2.1.reviews = c1Call1.2.1.reviews ∧
    c1Call2.2.1.revision_counter = c1Call1.2.1.revision_counter ∧
    c1Call2.2.1.audit_log = c1Call1.2.1.audit_log ++
      [AuditEvent.new "dev-user" "human" AuditAction.ProposalApplied "p1"
        AuditOutcome.Success "e2" "t2"] ∧
    c1Call2.2.2 = c1Call1.2.2 ++
      [{ event_type := "proposal_updated"
         workspace_id := none
         resource_id := "p1"
         actor_id := "dev-user"
         timestamp := "t2"
         data := none }] :=
  ⟨rfl, rfl, rfl, rfl, rfl, rfl, rfl, rfl, rfl⟩

/-- C10 amended: `query_nodes` returns a page precisely when the requested
offset is at most the number of matching nodes; when the offset exceeds the
match count the slice bounds are invalid (`offset > end`) and the call
panics rather than returning an empty page. -/
theorem C10_amended (s : InMemoryStore) (q : NodeQuery) :
    (s.query_nodes q).isSome = true ↔ q.offset.getD 0 ≤ (filteredNodes s q).length := by
  simp only [InMemoryStore.query_nodes, sliceRange]
  by_cases hoff : q.offset.getD 0 ≤ (filteredNodes s q).length
  · have h1 : q.offset.getD 0 ≤
        min (q.offset.getD 0 + min (q.limit.getD 50) 1000) (filteredNodes s q).length :=
      le_min (Nat.le_add_right _ _) hoff
    have h2 : min (q.offset.getD 0 + min (q.limit.getD 50) 1000)
        (filteredNodes s q).length ≤ (filteredNodes s q).length := min_le_right _ _
    rw [if_pos ⟨h1, h2⟩]
    simp [hoff]
  · have h2 : min (q.offset.getD 0 + min (q.limit.getD 50) 1000)
        (filteredNodes s q).length ≤ (filteredNodes s q).length := min_le_right _ _
    have hneg : ¬(q.offset.getD 0 ≤
        min (q.offset.getD 0 + min (q.limit.getD 50) 1000) (filteredNodes s q).length ∧
        min (q.offset.getD 0 + min (q.limit.getD 50) 1000)
          (filteredNodes s q).length ≤ (filteredNodes s q).length) := by
      rintro ⟨ha, _⟩
      exact hoff (le_trans ha h2)
    rw [if_neg hneg]
    simp [hoff]

/-- C4 amended: for every successful `Update`, and for every `Delete` or
`StatusChange` touching an existing node, the stored version becomes
`(old + 1) % 2^32` — strictly greater than `old` whenever the increment does
not overflow the `u32`; a successful `Create` stores the operation node's
`version + 1 (mod 2^32)` regardless of any node previously stored at that
key, so a replacing `Create` may lower the stored version. -/
theorem C4_amended :
    (∀ (nodes : List (String × ContextNode)) (oid : String) (ord : Nat)
       (node : ContextNode) (now modifier : String) (nodes' : List (String × ContextNode)),
       InMemoryStore.apply_operation nodes (Operation.Create oid ord node) now modifier =
         Except.ok nodes' →
       versionAt nodes' (node_key node.id) = some ((node.metadata.version + 1) % 2 ^ 32)) ∧
    (∀ (nodes : List (String × ContextNode)) (oid : String) (ord : Nat) (nid : NodeId)
       (ch : UpdateChanges) (now modifier : String)
       (nodes' : List (String × ContextNode)) (v : Nat),
       versionAt nodes (node_key nid) = some v →
       InMemoryStore.apply_operation nodes (Operation.Update oid ord nid ch) now modifier =
         Except.ok nodes' →
       versionAt nodes' (node_key nid) = some ((v + 1) % 2 ^ 32) ∧
         (v + 1 < 2 ^ 32 → v < (v + 1) % 2 ^ 32)) ∧
    (∀ (nodes : List (String × ContextNode)) (oid : String) (ord : Nat) (nid : NodeId)
       (reason : Option String) (now modifier : String)
       (nodes' : List (String × ContextNode)) (v : Nat),
       versionAt nodes (node_key nid) = some v →
       InMemoryStore.apply_operation nodes (Operation.Delete oid ord nid reason) now modifier =
         Except.ok nodes' →
       versionAt nodes' (node_key nid) = some ((v + 1) % 2 ^ 32) ∧
         (v + 1 < 2 ^ 32 → v < (v + 1) % 2 ^ 32)) ∧
    (∀ (nodes : List (String × ContextNode)) (oid : String) (ord : Nat) (nid : NodeId)
       (ns os : NodeStatus) (reason : Option String) (now modifier : String)
       (nodes' : List (String × ContextNode)) (v : Nat),
       versionAt nodes (node_key nid) = some v →
       InMemoryStore.apply_operation nodes
         (Operation.StatusChange oid ord nid ns os reason) now modifier = Except.ok nodes' →
       versionAt nodes' (node_key nid) = some ((v + 1) % 2 ^ 32) ∧
         (v + 1 < 2 ^ 32 → v < (v + 1) % 2 ^ 32)) := by
  refine ⟨?_, ?_, ?_, ?_⟩
  · intro nodes oid ord node now modifier nodes' h
    simp only [InMemoryStore.apply_operation, Except.ok.injEq] at h
    subst h
    simp [versionAt, mapLookup_mapInsert_self]
  · intro nodes oid ord nid ch now modifier nodes' v hv h
    obtain ⟨c, st, ex⟩ := ch
    cases hm : mapLookup nodes (node_key nid) with
    | none => simp [versionAt, hm] at hv
    | some existing =>
      have hver : existing.metadata.version = v := by
        simpa [versionAt, hm] using hv
      cases c <;> cases st <;>
        (simp only [InMemoryStore.apply_operation, hm, Except.ok.injEq] at h
         subst h
         refine ⟨?_, fun hlt => ?_⟩
         · simp [versionAt, mapLookup_mapInsert_self, hver]
         · rw [Nat.mod_eq_of_lt hlt]; omega)
  · intro nodes oid ord nid reason now modifier nodes' v hv h
    cases hm : mapLookup nodes (node_key nid) with
    | none => simp [versionAt, hm] at hv
    | some existing =>
      have hver : existing.metadata.version = v := by
        simpa [versionAt, hm] using hv
      simp only [InMemoryStore.apply_operation, hm, Except.ok.injEq] at h
      subst h
      refine ⟨?_, fun hlt => ?_⟩
      · simp [versionAt, mapLookup_mapInsert_self, hver]
      · rw [Nat.mod_eq_of_lt hlt]; omega
  · intro nodes oid ord nid ns os reason now modifier nodes' v hv h
    cases hm : mapLookup nodes (node_key nid) with
    | none => simp [versionAt, hm] at hv
    | some existing =>
      have hver : existing.metadata.version = v := by
        simpa [versionAt, hm] using hv
      simp only [InMemoryStore.apply_operation, hm, Except.ok.injEq] at h
      subst h
      refine ⟨?_, fun hlt => ?_⟩
      · simp [versionAt, mapLookup_mapInsert_self, hver]
      · rw [Nat.mod_eq_of_lt hlt]; omega

/-- C4 amended witness: updating node `n1` (stored at version 5) bumps its
stored version to 6. -/
theorem C4_amended_witness :
    versionAt c4UpdNodesAfter "n1" = some ((5 + 1) % 2 ^ 32) ∧
      (5 + 1 < 2 ^ 32 → 5 < (5 + 1) % 2 ^ 32) :=
  C4_amended.2.1 c4Nodes "u1" 1 { id := "n1", nspace := none } noChanges "t3" "u3"
    c4UpdNodesAfter 5 rfl rfl

/-- The operation loop is the identity on a list of operations that are all
silent no-ops on missing nodes. -/
theorem applyOps_noop (nodes : List (String × ContextNode)) (l : List Operation)
    (now modifier : String) (h : ∀ op ∈ l, noopOnMissing nodes op) :
    applyOps nodes l now modifier = (Except.ok (), nodes) := by
  induction l with
  | nil => rfl
  | cons op rest ih =>
    have hop := h op (List.mem_cons_self _ _)
    have hrest : ∀ o ∈ rest, noopOnMissing nodes o :=
      fun o ho => h o (List.mem_cons_of_mem _ ho)
    cases op with
    | Create oid ord node => exact hop.elim
    | Update oid ord nid ch => exact hop.elim
    | Delete oid ord nid reason =>
      have hm : mapLookup nodes (node_key nid) = none := hop
      have hstep : InMemoryStore.apply_operation nodes
          (Operation.Delete oid ord nid reason) now modifier = Except.ok nodes := by
        simp [InMemoryStore.apply_operation, hm]
      simp only [applyOps, hstep]
      exact ih hrest
    | StatusChange oid ord nid ns os reason =>
      have hm : mapLookup nodes (node_key nid) = none := hop
      have hstep : InMemoryStore.apply_operation nodes
          (Operation.StatusChange oid ord nid ns os reason) now modifier =
          Except.ok nodes := by
        simp [InMemoryStore.apply_operation, hm]
      simp only [applyOps, hstep]
      exact ih hrest

/-- C9: during apply, a `Delete` or `StatusChange` naming a missing node is
a silent no-op (the node map is returned unchanged, no error), an accepted
proposal consisting of such operations still applies successfully, and an
`Update` naming a missing node fails with `NotFound`. -/
theorem C9_missing_node_semantics :
    (∀ (nodes : List (String × ContextNode)) (oid : String) (ord : Nat) (nid : NodeId)
       (reason : Option String) (now modifier : String),
       mapLookup nodes (node_key nid) = none →
       InMemoryStore.apply_operation nodes (Operation.Delete oid ord nid reason)
         now modifier = Except.ok nodes) ∧
    (∀ (nodes : List (String × ContextNode)) (oid : String) (ord : Nat) (nid : NodeId)
       (ns os : NodeStatus) (reason : Option String) (now modifier : String),
       mapLookup nodes (node_key nid) = none →
       InMemoryStore.apply_operation nodes (Operation.StatusChange oid ord nid ns os reason)
         now modifier = Except.ok nodes) ∧
    (∀ (nodes : List (String × ContextNode)) (oid : String) (ord : Nat) (nid : NodeId)
       (ch : UpdateChanges) (now modifier : String),
       mapLookup nodes (node_key nid) = none →
       InMemoryStore.apply_operation nodes (Operation.Update oid ord nid ch)
         now modifier = Except.error (StoreError.NotFound ("node " ++ node_key nid))) ∧
    (∀ (s : InMemoryStore) (pid applier now : String) (p : Proposal),
       mapLookup s.proposals pid = some p →
       p.status = ProposalStatus.Accepted →
       (∀ op ∈ p.operations, noopOnMissing s.nodes op) →
       (s.apply_proposal pid applier now).1 = Except.ok ()) := by
  refine ⟨?_, ?_, ?_, ?_⟩
  · intro nodes oid ord nid reason now modifier hm
    simp [InMemoryStore.apply_operation, hm]
  · intro nodes oid ord nid ns os reason now modifier hm
    simp [InMemoryStore.apply_operation, hm]
  · intro nodes oid ord nid ch now modifier hm
    simp [InMemoryStore.apply_operation, hm]
  · intro s pid applier now p hp hs hnoop
    have hops : ∀ op ∈ sortOpsByOrder p.operations, noopOnMissing s.nodes op := by
      intro op hop
      apply hnoop
      simp only [sortOpsByOrder] at hop
      exact (List.mem_insertionSort (fun a b => a.order ≤ b.order)).mp hop
    have hrun := applyOps_noop s.nodes (sortOpsByOrder p.operations) now applier hops
    simp [InMemoryStore.apply_proposal, hp, hs, hrun]

/-- C9 witness: deleting the missing node `ghost` is a no-op on an empty
map, and the concrete accepted proposal `p9` (a delete and a status change
of missing nodes) applies successfully. -/
theorem C9_witness :
    InMemoryStore.apply_operation []
      (Operation.Delete "d1" 1 { id := "ghost", nspace := none } none) "t" "u" =
      Except.ok [] ∧
    (c9Store.apply_proposal "p9" "test-user" "t").1 = Except.ok () := by
  constructor
  · exact C9_missing_node_semantics.1 [] "d1" 1 { id := "ghost", nspace := none }
      none "t" "u" rfl
  · refine C9_missing_node_semantics.2.2.2 c9Store "p9" "test-user" "t" c9Proposal
      rfl rfl ?_
    intro op hop
    have : op = Operation.Delete "d1" 1 { id := "ghost", nspace := none } none ∨
        op = Operation.StatusChange "s1" 2 { id := "ghost2", nspace := none }
          NodeStatus.Rejected NodeStatus.Accepted none := by
      simpa [c9Proposal, mkProposal] using hop
    rcases this with rfl | rfl
    · exact rfl
    · exact rfl

/-- C6: for an agent read of an existing node, with `s` the node's
sensitivity (defaulting to internal) and `m` the agent maximum: if `s ≤ m`
the agent observes the full node, with a `sensitive_read`/`success` audit
event appended exactly when `s` is confidential or restricted; if `s > m`
the agent observes the redacted stub carrying `{id, type, status,
sensitivity}` and a `sensitive_read`/`denied` audit event is appended. -/
theorem C6_sensitivity_gate (policies : PolicyConfig) (actor : ActorContext)
    (s : InMemoryStore) (id eid ts : String) (node : ContextNode)
    (hrole : actor.has_role Role.Reader = true)
    (hagent : actor.actor_type = ActorType.Agent)
    (hnode : mapLookup s.nodes id = some node) :
    ((node.metadata.sensitivity.getD Sensitivity.Internal).toNat ≤
        (agent_max_sensitivity policies).toNat →
      (route_get_node policies actor s id eid ts).1 =
        Except.ok (GetNodeResponse.node node) ∧
      (route_get_node policies actor s id eid ts).2.audit_log =
        s.audit_log ++
          (if Sensitivity.Confidential.toNat ≤
              (node.metadata.sensitivity.getD Sensitivity.Internal).toNat then
            [(AuditEvent.new actor.actor_id (actor_type_str actor)
                AuditAction.SensitiveRead id AuditOutcome.Success eid ts).with_details
              (Json.obj [("nodeSensitivity",
                 Json.str (node.metadata.sensitivity.getD Sensitivity.Internal).as_str)])]
          else [])) ∧
    (¬ (node.metadata.sensitivity.getD Sensitivity.Internal).toNat ≤
        (agent_max_sensitivity policies).toNat →
      (route_get_node policies actor s id eid ts).1 =
        Except.ok (GetNodeResponse.redactedStub node.id node.node_type node.status
          (node.metadata.sensitivity.getD Sensitivity.Internal)) ∧
      (route_get_node policies actor s id eid ts).2.audit_log =
        s.audit_log ++
          [(AuditEvent.new actor.actor_id (actor_type_str actor)
              AuditAction.SensitiveRead id AuditOutcome.Denied eid ts).with_details
            (Json.obj [("nodeSensitivity",
               Json.str (node.metadata.sensitivity.getD Sensitivity.Internal).as_str),
              ("agentMaxSensitivity",
               Json.str (agent_max_sensitivity policies).as_str)])]) := by
  have hnode' : InMemoryStore.get_node s { id := id, nspace := none } = some node := by
    simpa [InMemoryStore.get_node, node_key, NodeId.key] using hnode
  constructor
  · intro hle
    have hcan : agent_can_read (node.metadata.sensitivity.getD Sensitivity.Internal)
        (agent_max_sensitivity policies) = true := by
      simp [agent_can_read, hle]
    by_cases hc : Sensitivity.Confidential.toNat ≤
        (node.metadata.sensitivity.getD Sensitivity.Internal).toNat
    · simp [route_get_node, hrole, hnode', hagent, hcan, hc, InMemoryStore.append_audit]
    · simp [route_get_node, hrole, hnode', hagent, hcan, hc]
  · intro hgt
    have hcan : agent_can_read (node.metadata.sensitivity.getD Sensitivity.Internal)
        (agent_max_sensitivity policies) = false := by
      simp [agent_can_read, hgt]
    simp [route_get_node, hrole, hnode', hagent, hcan, InMemoryStore.append_audit]

/-- C6 witness: the agent reader's request for the restricted node `n6`
under the default (internal) agent maximum yields the redacted stub and
appends the `sensitive_read`/`denied` audit event. -/
theorem C6_witness :
    (route_get_node cfg0 agentReader c6Store "n6" "e9" "t9").1 =
      Except.ok (GetNodeResponse.redactedStub c6Node.id c6Node.node_type c6Node.status
        (c6Node.metadata.sensitivity.getD Sensitivity.Internal)) ∧
    (route_get_node cfg0 agentReader c6Store "n6" "e9" "t9").2.audit_log =
      c6Store.audit_log ++
        [(AuditEvent.new agentReader.actor_id (actor_type_str agentReader)
            AuditAction.SensitiveRead "n6" AuditOutcome.Denied "e9" "t9").with_details
          (Json.obj [("nodeSensitivity",
             Json.str (c6Node.metadata.sensitivity.getD Sensitivity.Internal).as_str),
            ("agentMaxSensitivity",
             Json.str (agent_max_sensitivity cfg0).as_str)])] :=
  (C6_sensitivity_gate cfg0 agentReader c6Store "n6" "e9" "t9" c6Node rfl rfl rfl).2
    (by decide)

/-- The rule loop of `evaluate_on_review`, as a fold from an arbitrary
accumulator, computes the maximum of the applicable `MinApprovals`
thresholds and appends the applicable-but-unsatisfied
`RequiredReviewerRole` violations in rule order. -/
theorem reviewRuleStep_foldl (p : Proposal) (rs : List Review) :
    ∀ (rules : List PolicyRule) (a : Nat) (vs : List PolicyViolation),
      rules.foldl (reviewRuleStep p rs) (a, vs) =
        (max a ((minApprovalsOf p rules).foldr max 0),
         vs ++ roleViolationsOf p rs rules) := by
  intro rules
  induction rules with
  | nil =>
    intro a vs
    simp [minApprovalsOf, roleViolationsOf]
  | cons rule rules ih =>
    intro a vs
    rw [List.foldl_cons]
    cases rule with
    | MinApprovals nts mn =>
      by_cases happ : (nts.isEmpty || proposal_touches_node_types p nts) = true
      · have happ' : applicableRule p nts = true := happ
        have hstep : reviewRuleStep p rs (a, vs) (PolicyRule.MinApprovals nts mn) =
            (max a mn, vs) := by
          simp only [reviewRuleStep]
          rw [if_pos happ]
        have hmins : minApprovalsOf p (PolicyRule.MinApprovals nts mn :: rules) =
            mn :: minApprovalsOf p rules := by
          simp only [minApprovalsOf, List.filterMap_cons]
          rw [if_pos happ']
        have hrv : roleViolationsOf p rs (PolicyRule.MinApprovals nts mn :: rules) =
            roleViolationsOf p rs rules := rfl
        rw [hstep, ih, hmins, hrv, List.foldr_cons, ← Nat.max_assoc]
      · have happ' : applicableRule p nts = false := by
          cases hb : (nts.isEmpty || proposal_touches_node_types p nts) with
          | false => exact hb
          | true => exact absurd hb happ
        have hstep : reviewRuleStep p rs (a, vs) (PolicyRule.MinApprovals nts mn) =
            (a, vs) := by
          simp only [reviewRuleStep]
          rw [if_neg happ]
        have hnapp : ¬(applicableRule p nts = true) := by
          rw [happ']
          simp
        have hmins : minApprovalsOf p (PolicyRule.MinApprovals nts mn :: rules) =
            minApprovalsOf p rules := by
          simp only [minApprovalsOf, List.filterMap_cons]
          rw [if_neg hnapp]
        have hrv : roleViolationsOf p rs (PolicyRule.MinApprovals nts mn :: rules) =
            roleViolationsOf p rs rules := rfl
        rw [hstep, ih, hmins, hrv]
    | RequiredReviewerRole nts role =>
      have hmins : minApprovalsOf p (PolicyRule.RequiredReviewerRole nts role :: rules) =
          minApprovalsOf p rules := rfl
      by_cases happ : (nts.isEmpty || proposal_touches_node_types p nts) = true
      · have happ' : applicableRule p nts = true := happ
        by_cases hhas : (rs.any (fun r =>
            decide (r.action = ReviewAction.Accept) &&
              decide (r.reviewer_role = some role))) = true
        · have hhas' : hasRoleAccept rs role = true := hhas
          have hstep : reviewRuleStep p rs (a, vs)
              (PolicyRule.RequiredReviewerRole nts role) = (a, vs) := by
            simp only [reviewRuleStep]
            rw [if_pos happ, if_pos hhas]
          have hcond : ¬((applicableRule p nts && !(hasRoleAccept rs role)) = true) := by
            rw [hhas']
            simp
          have hrv : roleViolationsOf p rs
              (PolicyRule.RequiredReviewerRole nts role :: rules) =
              roleViolationsOf p rs rules := by
            simp only [roleViolationsOf, List.filterMap_cons]
            rw [if_neg hcond]
          rw [hstep, ih, hmins, hrv]
        · have hhas' : hasRoleAccept rs role = false := by
            cases hb : (rs.any (fun r =>
                decide (r.action = ReviewAction.Accept) &&
                  decide (r.reviewer_role = some role))) with
            | false => exact hb
            | true => exact absurd hb hhas
          have hstep : reviewRuleStep p rs (a, vs)
              (PolicyRule.RequiredReviewerRole nts role) =
              (a, vs ++ [{ rule := "required_reviewer_role"
                           message := "requires reviewer with role '" ++ role ++ "'" }]) := by
            simp only [reviewRuleStep]
            rw [if_pos happ, if_neg hhas]
          have hcond : (applicableRule p nts && !(hasRoleAccept rs role)) = true := by
            rw [happ', hhas']
            rfl
          have hrv : roleViolationsOf p rs
              (PolicyRule.RequiredReviewerRole nts role :: rules) =
              { rule := "required_reviewer_role"
                message := "requires reviewer with role '" ++ role ++ "'" } ::
                roleViolationsOf p rs rules := by
            simp only [roleViolationsOf, List.filterMap_cons]
            rw [if_pos hcond]
          rw [hstep, ih, hmins, hrv, List.append_assoc]
          rfl
      · have happ' : applicableRule p nts = false := by
          cases hb : (nts.isEmpty || proposal_touches_node_types p nts) with
          | false => exact hb
          | true => exact absurd hb happ
        have hstep : reviewRuleStep p rs (a, vs)
            (PolicyRule.RequiredReviewerRole nts role) = (a, vs) := by
          simp only [reviewRuleStep]
          rw [if_neg happ]
        have hcond : ¬((applicableRule p nts && !(hasRoleAccept rs role)) = true) := by
          rw [happ']
          simp
        have hrv : roleViolationsOf p rs
            (PolicyRule.RequiredReviewerRole nts role :: rules) =
            roleViolationsOf p rs rules := by
          simp only [roleViolationsOf, List.filterMap_cons]
          rw [if_neg hcond]
        rw [hstep, ih, hmins, hrv]
    | ChangeWindow a' b' c' => exact ih a vs
    | AgentRestriction a' => exact ih a vs
    | AgentProposalLimit a' b' => exact ih a vs
    | EgressControl a' b' => exact ih a vs

/-- The role-violation list is empty exactly when no `RequiredReviewerRole`
rule is applicable and unsatisfied. -/
theorem roleViolationsOf_eq_nil_iff (p : Proposal) (rs : List Review)
    (rules : List PolicyRule) :
    roleViolationsOf p rs rules = [] ↔
      (rules.any (fun rule =>
        match rule with
        | .RequiredReviewerRole nts role =>
          applicableRule p nts && !(hasRoleAccept rs role)
        | _ => false)) = false := by
  rw [roleViolationsOf, List.filterMap_eq_nil_iff, List.any_eq_false]
  constructor
  · intro h x hx
    cases x with
    | RequiredReviewerRole nts role =>
      have hfx : (if (applicableRule p nts && !(hasRoleAccept rs role)) = true then
          some ({ rule := "required_reviewer_role"
                  message := "requires reviewer with role '" ++ role ++ "'" } :
            PolicyViolation)
        else none) = none := h _ hx
      intro hc
      rw [if_pos hc] at hfx
      cases hfx
    | MinApprovals nts mn => simp
    | ChangeWindow a b c => simp
    | AgentRestriction a => simp
    | AgentProposalLimit a b => simp
    | EgressControl a b => simp
  · intro h x hx
    cases x with
    | RequiredReviewerRole nts role =>
      have hfx : ¬((applicableRule p nts && !(hasRoleAccept rs role)) = true) := h _ hx
      show (if (applicableRule p nts && !(hasRoleAccept rs role)) = true then
          some ({ rule := "required_reviewer_role"
                  message := "requires reviewer with role '" ++ role ++ "'" } :
            PolicyViolation)
        else none) = none
      rw [if_neg hfx]
    | MinApprovals nts mn => rfl
    | ChangeWindow a b c => rfl
    | AgentRestriction a => rfl
    | AgentProposalLimit a b => rfl
    | EgressControl a b => rfl

/-- C5 amended: for review sequences shorter than 2^32 (so the `count() as
u32` truncation is the identity), `evaluate_on_review` decides exactly as
the claim states: any reject ⇒ `Rejected`; else `Accepted` iff the accept
count reaches `max(1, max applicable MinApprovals.min)` and no
`RequiredReviewerRole` rule is violated; else `none` (still pending). -/
theorem C5_amended (p : Proposal) (rs : List Review) (policies : PolicyConfig)
    (hlen : rs.length < 2 ^ 32) :
    (evaluate_on_review p rs policies).1 = evaluate_on_review_spec p rs policies := by
  unfold evaluate_on_review evaluate_on_review_spec
  by_cases hrej : (rs.any (fun r => decide (r.action = ReviewAction.Reject))) = true
  · rw [if_pos hrej, if_pos hrej]
  · rw [if_neg hrej, if_neg hrej]
    have hcnt : rs.countP (fun r => decide (r.action = ReviewAction.Accept)) % 2 ^ 32 =
        rs.countP (fun r => decide (r.action = ReviewAction.Accept)) :=
      Nat.mod_eq_of_lt (lt_of_le_of_lt (List.countP_le_length _) hlen)
    rw [reviewRuleStep_foldl p rs policies.rules 1 [], hcnt, List.nil_append]
    by_cases hcond : max 1 ((minApprovalsOf p policies.rules).foldr max 0) ≤
        rs.countP (fun r => decide (r.action = ReviewAction.Accept)) ∧
        roleViolationsOf p rs policies.rules = []
    · rw [if_pos hcond,
        if_pos ⟨hcond.1, (roleViolationsOf_eq_nil_iff p rs policies.rules).mp hcond.2⟩]
    · rw [if_neg hcond,
        if_neg (fun hc => hcond
          ⟨hc.1, (roleViolationsOf_eq_nil_iff p rs policies.rules).mpr hc.2⟩)]

/-- C5 counterexample: with no policy rules and 2^32 accept reviews (no
reject), the claim's rule yields `Accepted` (accept count ≥ n_needed = 1,
as the spec-side function confirms), but the code's `count() as u32`
truncates the accept count to 0, so `evaluate_on_review` returns `none`
(still pending) — refuting the claim as stated for this review sequence. -/
theorem C5_counterexample :
    evaluate_on_review c5Proposal c5BigReviews cfg0 = (none, []) ∧
    evaluate_on_review_spec c5Proposal c5BigReviews cfg0 =
      some ProposalStatus.Accepted := by
  have hrej : (c5BigReviews.any (fun r => decide (r.action = ReviewAction.Reject))) = false := by
    unfold c5BigReviews
    rw [List.any_replicate, if_neg (by decide : ¬((2 : Nat) ^ 32 = 0))]
    rfl
  have hcnt : c5BigReviews.countP (fun r => decide (r.action = ReviewAction.Accept)) =
      2 ^ 32 := by
    unfold c5BigReviews
    rw [List.countP_replicate, if_pos]
    rfl
  have hnrej : ¬((c5BigReviews.any (fun r => decide (r.action = ReviewAction.Reject))) = true) := by
    rw [hrej]
    simp
  constructor
  · unfold evaluate_on_review
    rw [if_neg hnrej, hcnt, Nat.mod_self]
    rw [reviewRuleStep_foldl c5Proposal c5BigReviews cfg0.rules 1 [], List.nil_append]
    have hncond : ¬(max 1 ((minApprovalsOf c5Proposal cfg0.rules).foldr max 0) ≤ 0 ∧
        roleViolationsOf c5Proposal c5BigReviews cfg0.rules = []) := by
      intro hc
      exact absurd hc.1 (by decide)
    rw [if_neg hncond]
    rfl
  · unfold evaluate_on_review_spec
    rw [if_neg hnrej, hcnt]
    rw [if_pos]
    constructor
    · exact le_trans (by decide : max 1 ((minApprovalsOf c5Proposal cfg0.rules).foldr max 0) ≤ 1)
        Nat.one_le_two_pow
    · rfl

/-- C5 amended witness: a single accept review under a `MinApprovals(min=1)`
rule is decided `Accepted`, matching the spec-side rule. -/
theorem C5_amended_witness :
    (evaluate_on_review c5Proposal [acceptReview] cfg1).1 = some ProposalStatus.Accepted :=
  (C5_amended c5Proposal [acceptReview] cfg1 (by decide)).trans (by rfl)

/-- `create_proposal` never touches the revision counter. -/
theorem create_proposal_rev (s : InMemoryStore) (p : Proposal) :
    (s.create_proposal p).2.revision_counter = s.revision_counter := by
  unfold InMemoryStore.create_proposal
  by_cases h : (mapLookup s.proposals p.id).isSome
  · rw [if_pos h]
  · rw [if_neg h]

/-- `submit_review` never touches the revision counter. -/
theorem submit_review_rev (s : InMemoryStore) (rv : Review) :
    (s.submit_review rv).2.revision_counter = s.revision_counter := by
  cases hp : mapLookup s.proposals rv.proposal_id with
  | none => simp [InMemoryStore.submit_review, hp]
  | some p =>
    by_cases h : p.status ≠ ProposalStatus.Open
    · simp [InMemoryStore.submit_review, hp, h]
    · simp [InMemoryStore.submit_review, hp, h]

/-- `withdraw_proposal` never touches the revision counter. -/
theorem withdraw_proposal_rev (s : InMemoryStore) (pid : String) :
    (s.withdraw_proposal pid).2.revision_counter = s.revision_counter := by
  cases hp : mapLookup s.proposals pid with
  | none => simp [InMemoryStore.withdraw_proposal, hp]
  | some p =>
    by_cases h : p.status ≠ ProposalStatus.Open
    · simp [InMemoryStore.withdraw_proposal, hp, h]
    · simp [InMemoryStore.withdraw_proposal, hp, h]

/-- An apply call that does not find the proposal in status `Accepted`
leaves the store unchanged (idempotent return, `NotFound`, or `Invalid`). -/
theorem apply_proposal_unchanged (s : InMemoryStore) (pid applier now : String)
    (h : ∀ p, mapLookup s.proposals pid = some p → p.status ≠ ProposalStatus.Accepted) :
    (s.apply_proposal pid applier now).2 = s := by
  cases hp : mapLookup s.proposals pid with
  | none => simp [InMemoryStore.apply_proposal, hp]
  | some p =>
    have hne := h p hp
    by_cases ha : p.status = ProposalStatus.Applied
    · simp [InMemoryStore.apply_proposal, hp, ha]
    · simp [InMemoryStore.apply_proposal, hp, ha, hne]

/-- A performed, successful apply: the revision counter advances by one
(mod 2^64) and the stored proposal's `AppliedMetadata` records
`rev_prev`/`rev_(prev+1)` built from the counter value the apply read. -/
theorem apply_proposal_spec (s : InMemoryStore) (pid applier now : String) (p : Proposal)
    (hp : mapLookup s.proposals pid = some p)
    (hs : p.status = ProposalStatus.Accepted)
    (hok : (s.apply_proposal pid applier now).1 = Except.ok ()) :
    (s.apply_proposal pid applier now).2.revision_counter =
      (s.revision_counter + 1) % 2 ^ 64 ∧
    (mapLookup (s.apply_proposal pid applier now).2.proposals pid).bind
        (fun q => q.applied) =
      some { applied_at := now
             applied_by := applier
             applied_from_review_id :=
               ((mapLookup s.reviews pid).getD []).getLast?.map (fun r => r.id)
             applied_from_proposal_id := pid
             applied_to_revision_id := "rev_" ++ toString ((s.revision_counter + 1) % 2 ^ 64)
             previous_revision_id := "rev_" ++ toString s.revision_counter } := by
  have h1 : ¬(p.status = ProposalStatus.Applied) := by
    rw [hs]
    intro hcontra
    cases hcontra
  have h2 : ¬(p.status ≠ ProposalStatus.Accepted) := by
    rw [hs]
    simp
  simp only [InMemoryStore.apply_proposal, hp] at hok ⊢
  rw [if_neg h1, if_neg h2] at hok ⊢
  cases hrun : applyOps s.nodes (sortOpsByOrder p.operations) now applier with
  | mk res nodes' =>
    cases res with
    | error e =>
      rw [hrun] at hok
      simp at hok
    | ok u =>
      refine ⟨rfl, ?_⟩
      simp [mapLookup_mapInsert_self]

/-- Counter values along a clean trace are strictly increasing. -/
theorem rangeTrace_chain_lt : ∀ (k c : Nat),
    List.Chain' (fun a b : ApplyRecord => a.counter_read < b.counter_read)
      (rangeTrace c k) := by
  intro k
  induction k with
  | zero => intro c; exact List.chain'_nil
  | succ k ih =>
    intro c
    simp only [rangeTrace]
    rw [List.chain'_cons']
    refine ⟨?_, ih (c + 1)⟩
    intro b hb
    cases k with
    | zero => simp [rangeTrace] at hb
    | succ j =>
      have hb' : b = { counter_read := c + 1
                       previous_revision_id := "rev_" ++ toString (c + 1)
                       applied_to_revision_id := "rev_" ++ toString (c + 1 + 1) } := by
        symm
        simpa [rangeTrace] using hb
      rw [hb']
      exact Nat.lt_succ_self c

/-- Along a clean trace, each entry's `previous_revision_id` equals the
previous entry's `applied_to_revision_id`. -/
theorem rangeTrace_chain_ids : ∀ (k c : Nat),
    List.Chain' (fun a b : ApplyRecord =>
      b.previous_revision_id = a.applied_to_revision_id) (rangeTrace c k) := by
  intro k
  induction k with
  | zero => intro c; exact List.chain'_nil
  | succ k ih =>
    intro c
    simp only [rangeTrace]
    rw [List.chain'_cons']
    refine ⟨?_, ih (c + 1)⟩
    intro b hb
    cases k with
    | zero => simp [rangeTrace] at hb
    | succ j =>
      have hb' : b = { counter_read := c + 1
                       previous_revision_id := "rev_" ++ toString (c + 1)
                       applied_to_revision_id := "rev_" ++ toString (c + 1 + 1) } := by
        symm
        simpa [rangeTrace] using hb
      rw [hb']

/-- Each entry of a clean trace writes `rev_prev` / `rev_(prev+1)` from the
counter value it read. -/
theorem rangeTrace_format : ∀ (k c : Nat), ∀ e ∈ rangeTrace c k,
    e.previous_revision_id = "rev_" ++ toString e.counter_read ∧
    e.applied_to_revision_id = "rev_" ++ toString (e.counter_read + 1) := by
  intro k
  induction k with
  | zero => intro c e he; simp [rangeTrace] at he
  | succ k ih =>
    intro c e he
    simp only [rangeTrace, List.mem_cons] at he
    rcases he with rfl | he
    · exact ⟨rfl, rfl⟩
    · exact ih (c + 1) e he

/-- In a run with no reset and no partially-failed apply, the apply trace
is exactly the clean trace from the initial counter value, and is no longer
than the call sequence. -/
theorem runWithTrace_spec : ∀ (cs : List StoreCall) (s : InMemoryStore),
    noReset cs = true →
    (runWithTrace s cs).failed_apply = false →
    s.revision_counter + cs.length < 2 ^ 64 →
    (runWithTrace s cs).trace =
      rangeTrace s.revision_counter (runWithTrace s cs).trace.length ∧
    (runWithTrace s cs).trace.length ≤ cs.length := by
  intro cs
  induction cs with
  | nil => intro s _ _ _; exact ⟨rfl, Nat.le_refl 0⟩
  | cons c cs ih =>
    intro s hnr hnf hbound
    have hb2 : s.revision_counter + cs.length < 2 ^ 64 := by
      simp only [List.length_cons] at hbound
      omega
    have hb3 : s.revision_counter + cs.length + 1 < 2 ^ 64 := by
      simp only [List.length_cons] at hbound
      omega
    cases c with
    | createProposal p =>
      have hnr' : noReset cs = true := by simpa [noReset] using hnr
      have hrv : (s.create_proposal p).2.revision_counter = s.revision_counter :=
        create_proposal_rev s p
      have hred : runWithTrace s (StoreCall.createProposal p :: cs) =
          runWithTrace (s.create_proposal p).2 cs := rfl
      rw [hred] at hnf ⊢
      have hih := ih (s.create_proposal p).2 hnr' hnf (by rw [hrv]; exact hb2)
      rw [hrv] at hih
      exact ⟨hih.1, Nat.le_succ_of_le hih.2⟩
    | submitReview rv =>
      have hnr' : noReset cs = true := by simpa [noReset] using hnr
      have hrv : (s.submit_review rv).2.revision_counter = s.revision_counter :=
        submit_review_rev s rv
      have hred : runWithTrace s (StoreCall.submitReview rv :: cs) =
          runWithTrace (s.submit_review rv).2 cs := rfl
      rw [hred] at hnf ⊢
      have hih := ih (s.submit_review rv).2 hnr' hnf (by rw [hrv]; exact hb2)
      rw [hrv] at hih
      exact ⟨hih.1, Nat.le_succ_of_le hih.2⟩
    | withdrawProposal pid =>
      have hnr' : noReset cs = true := by simpa [noReset] using hnr
      have hrv : (s.withdraw_proposal pid).2.revision_counter = s.revision_counter :=
        withdraw_proposal_rev s pid
      have hred : runWithTrace s (StoreCall.withdrawProposal pid :: cs) =
          runWithTrace (s.withdraw_proposal pid).2 cs := rfl
      rw [hred] at hnf ⊢
      have hih := ih (s.withdraw_proposal pid).2 hnr' hnf (by rw [hrv]; exact hb2)
      rw [hrv] at hih
      exact ⟨hih.1, Nat.le_succ_of_le hih.2⟩
    | appendAudit e =>
      have hnr' : noReset cs = true := by simpa [noReset] using hnr
      have hred : runWithTrace s (StoreCall.appendAudit e :: cs) =
          runWithTrace (s.append_audit e).2 cs := rfl
      rw [hred] at hnf ⊢
      have hih := ih (s.append_audit e).2 hnr' hnf hb2
      exact ⟨hih.1, Nat.le_succ_of_le hih.2⟩
    | resetStore => simp [noReset] at hnr
    | applyProposal pid applier now =>
      have hnr' : noReset cs = true := by simpa [noReset] using hnr
      cases hp : mapLookup s.proposals pid with
      | none =>
        have hunch : (s.apply_proposal pid applier now).2 = s := by
          apply apply_proposal_unchanged
          intro q hq
          rw [hp] at hq
          cases hq
        have hred : runWithTrace s (StoreCall.applyProposal pid applier now :: cs) =
            runWithTrace s cs := by
          simp [runWithTrace, hp, hunch]
        rw [hred] at hnf ⊢
        have hih := ih s hnr' hnf hb2
        exact ⟨hih.1, Nat.le_succ_of_le hih.2⟩
      | some p =>
        by_cases hacc : p.status = ProposalStatus.Accepted
        · cases hr : (s.apply_proposal pid applier now).1 with
          | error e =>
            exfalso
            have hfail : (runWithTrace s
                (StoreCall.applyProposal pid applier now :: cs)).failed_apply = true := by
              simp [runWithTrace, hp, hacc, hr]
            rw [hfail] at hnf
            cases hnf
          | ok u =>
            cases u
            obtain ⟨hrv, happl⟩ := apply_proposal_spec s pid applier now p hp hacc hr
            have hmod : (s.revision_counter + 1) % 2 ^ 64 = s.revision_counter + 1 :=
              Nat.mod_eq_of_lt (by omega)
            rw [hmod] at hrv happl
            cases hl : mapLookup (s.apply_proposal pid applier now).2.proposals pid with
            | none =>
              rw [hl] at happl
              cases happl
            | some p' =>
              rw [hl] at happl
              have happl' : p'.applied =
                  some { applied_at := now
                         applied_by := applier
                         applied_from_review_id :=
                           ((mapLookup s.reviews pid).getD []).getLast?.map (fun r => r.id)
                         applied_from_proposal_id := pid
                         applied_to_revision_id :=
                           "rev_" ++ toString (s.revision_counter + 1)
                         previous_revision_id :=
                           "rev_" ++ toString s.revision_counter } := by
                simpa using happl
              have hred : runWithTrace s (StoreCall.applyProposal pid applier now :: cs) =
                  { state := (runWithTrace (s.apply_proposal pid applier now).2 cs).state
                    trace := { counter_read := s.revision_counter
                               previous_revision_id :=
                                 "rev_" ++ toString s.revision_counter
                               applied_to_revision_id :=
                                 "rev_" ++ toString (s.revision_counter + 1) } ::
                      (runWithTrace (s.apply_proposal pid applier now).2 cs).trace
                    failed_apply :=
                      (runWithTrace (s.apply_proposal pid applier now).2 cs).failed_apply } := by
                simp [runWithTrace, hp, hacc, hr, hl, happl']
              rw [hred] at hnf ⊢
              have hnf' : (runWithTrace (s.apply_proposal pid applier now).2 cs).failed_apply =
                  false := hnf
              have hbr : (s.apply_proposal pid applier now).2.revision_counter + cs.length <
                  2 ^ 64 := by
                rw [hrv]
                omega
              have hih := ih (s.apply_proposal pid applier now).2 hnr' hnf' hbr
              rw [hrv] at hih
              constructor
              · simp only [List.length_cons, rangeTrace]
                exact congrArg (List.cons _) hih.1
              · simp only [List.length_cons]
                exact Nat.succ_le_succ hih.2
        · have hunch : (s.apply_proposal pid applier now).2 = s := by
            apply apply_proposal_unchanged
            intro q hq
            rw [hp] at hq
            cases hq
            exact hacc
          have hred : runWithTrace s (StoreCall.applyProposal pid applier now :: cs) =
              runWithTrace s cs := by
            simp [runWithTrace, hp, hacc, hunch]
          rw [hred] at hnf ⊢
          have hih := ih s hnr' hnf hb2
          exact ⟨hih.1, Nat.le_succ_of_le hih.2⟩

/-- C7 counterexample: in the sequence `c7Demo` — apply pa; apply pb (fails
partway, still incrementing the counter); apply pc; reset; apply pd — the
performed applies read counter values 0, 2, 0: neither strictly increasing
nor chained (`rev_1` vs `rev_2`, `rev_3` vs `rev_0`), refuting the claim as
stated over arbitrary store-operation sequences. -/
theorem C7_counterexample : ¬ revisionChainClaim c7Demo := by
  intro hclaim
  have htr : (runWithTrace InMemoryStore.new c7Demo).trace =
      [{ counter_read := 0, previous_revision_id := "rev_0",
         applied_to_revision_id := "rev_1" },
       { counter_read := 2, previous_revision_id := "rev_2",
         applied_to_revision_id := "rev_3" },
       { counter_read := 0, previous_revision_id := "rev_0",
         applied_to_revision_id := "rev_1" }] := by rfl
  unfold revisionChainClaim at hclaim
  rw [htr] at hclaim
  have hlt := hclaim.1
  rw [List.chain'_cons, List.chain'_cons] at hlt
  exact absurd hlt.2.1 (by decide)

/-- C7 amended: over every sequence of store calls that contains no `reset`
and no apply that fails after passing the status gate (and has fewer than
2^64 calls), the apply trace is exactly `rev_0 → rev_1 → rev_2 → …`: the
counter values read by successive applies are strictly increasing, each
apply writes `rev_prev`/`rev_(prev+1)` from the counter value it read, and
the `previous_revision_id` of each apply equals the
`applied_to_revision_id` of the one before. -/
theorem C7_amended (cs : List StoreCall)
    (h1 : noReset cs = true)
    (h2 : (runWithTrace InMemoryStore.new cs).failed_apply = false)
    (h3 : cs.length < 2 ^ 64) :
    (runWithTrace InMemoryStore.new cs).trace =
      rangeTrace 0 (runWithTrace InMemoryStore.new cs).trace.length ∧
    revisionChainClaim cs := by
  have hmain := runWithTrace_spec cs InMemoryStore.new h1 h2
    (by simpa [InMemoryStore.new] using h3)
  have htr : (runWithTrace InMemoryStore.new cs).trace =
      rangeTrace 0 (runWithTrace InMemoryStore.new cs).trace.length := hmain.1
  refine ⟨htr, ?_, ?_, ?_⟩
  · rw [htr]
    exact rangeTrace_chain_lt _ 0
  · rw [htr]
    intro e he
    exact rangeTrace_format _ 0 e he
  · rw [htr]
    exact rangeTrace_chain_ids _ 0

/-- C7 amended witness: the clean demo sequence (two creates, two applies)
produces exactly the trace `rev_0 → rev_1`, `rev_1 → rev_2` and satisfies
the claim's three properties. -/
theorem C7_amended_witness :
    (runWithTrace InMemoryStore.new c7CleanDemo).trace =
      rangeTrace 0 (runWithTrace InMemoryStore.new c7CleanDemo).trace.length ∧
    revisionChainClaim c7CleanDemo :=
  C7_amended c7CleanDemo (by decide) (by decide) (by decide)
